import Mathlib

/-!
# EasyTracker: the capture / solve / select / publish pipeline

A shallow embedding of `src/tracker-easy/tracker-easy.cpp`
(`EasyTracker::Tracker`).

* `int` values are mathematical integers. The tracker compares them, which
  cannot overflow, and negates two settings, which wraps around at 32 bits
  (`negInt`).
* `double` and `float` values are modelled by rationals (every finite one is
  a rational). The tracker copies them, takes an absolute value, converts to
  `int`, and, for the model points, divides by `10.0` and narrows to `float`;
  the last two round to nearest, ties to even, as IEEE 754 arithmetic does.
* Reading a `std::vector` outside its bounds, and converting a `double` that
  does not fit an `int`, are undefined behaviour in C++; the embedding returns
  `none` for such an execution.
* The camera, the point extractor and the P3P solver are collaborators whose
  code is not part of the tracker; they appear as explicit inputs.
-/

namespace EasyTracker

/-! ## Data model -/

/-- A detected point, `cv::Point`: integer image coordinates. -/
structure Point where
  x : Int
  y : Int
  deriving DecidableEq, Repr

/-- A triple of doubles, `cv::Vec3d` / `cv::Point3f`. -/
structure Vec3 where
  v0 : ℚ
  v1 : ℚ
  v2 : ℚ
  deriving DecidableEq

/-- The value `std::numeric_limits<int>::max()`. -/
def INT_MAX : Int := 2147483647

/-- Element access `v[i]` of a `std::vector` with an `int` index: `none` when
the index is outside `0 .. size-1`. -/
def vecAt {α : Type} (v : List α) (i : Int) : Option α :=
  if 0 ≤ i then v.get? i.toNat else none

/-! ## Correspondence resolver (`Tracker::run`, lines 176-219) -/

/-- One iteration of the first loop: `if (iPoints[i].y < minY) ...`.
The loop state is `(minY, topPointIndex)`. -/
def topStep (iPoints : List Point) (st : Int × Int) (i : Int) : Option (Int × Int) :=
  (vecAt iPoints i).map fun p => if p.y < st.1 then (p.y, i) else st

/-- The loop `for (i = 0; i < 3; i++)` that finds the top-most point; starts
from `minY = INT_MAX`, `topPointIndex = -1` and returns `topPointIndex`. -/
def findTopPointIndex (iPoints : List Point) : Option Int :=
  ([0, 1, 2].foldlM (topStep iPoints) (INT_MAX, -1)).map Prod.snd

/-- One iteration of the second loop:
`if (i != topPointIndex && iPoints[i].x > maxX) ...`. The element is read only
when `i != topPointIndex` (short-circuit `&&`). The loop state is
`(maxX, rightPointIndex)`. -/
def rightStep (iPoints : List Point) (topPointIndex : Int) (st : Int × Int) (i : Int) :
    Option (Int × Int) :=
  if i ≠ topPointIndex then
    (vecAt iPoints i).map fun p => if p.x > st.1 then (p.x, i) else st
  else some st

/-- The loop that finds the right-most point among those other than the top;
starts from `maxX = 0`, `rightPointIndex = -1`. -/
def findRightPointIndex (iPoints : List Point) (topPointIndex : Int) : Option Int :=
  ([0, 1, 2].foldlM (rightStep iPoints topPointIndex) (0, -1)).map Prod.snd

/-- The third loop: the first `i` in `0, 1, 2` different from both indices
(`break` on the first hit); `-1` when there is none. -/
def findLeftPointIndex (topPointIndex rightPointIndex : Int) : Int :=
  (([0, 1, 2] : List Int).find? fun i => i ≠ topPointIndex ∧ i ≠ rightPointIndex).getD (-1)

/-- The three role indices `(topPointIndex, rightPointIndex, leftPointIndex)`. -/
def roleIndices (iPoints : List Point) : Option (Int × Int × Int) := do
  let topPointIndex ← findTopPointIndex iPoints
  let rightPointIndex ← findRightPointIndex iPoints topPointIndex
  pure (topPointIndex, rightPointIndex, findLeftPointIndex topPointIndex rightPointIndex)

/-- The correspondence `iTrackedPoints` after the three `push_back`s:
`{iPoints[rightPointIndex], iPoints[leftPointIndex], iPoints[topPointIndex]}`. -/
def resolveCorrespondence (iPoints : List Point) : Option (List Point) := do
  let (topPointIndex, rightPointIndex, leftPointIndex) ← roleIndices iPoints
  let r ← vecAt iPoints rightPointIndex
  let l ← vecAt iPoints leftPointIndex
  let t ← vecAt iPoints topPointIndex
  pure [r, l, t]

/-! ## Hypothesis selector (`Tracker::run`, lines 226-262) -/

/-- The value `std::numeric_limits<int>::min()`. -/
def INT_MIN : Int := -2147483648

/-- Conversion of a `double` to `int`: the fractional part is discarded
(truncation toward zero); the behaviour is undefined when the truncated value
is not representable, rendered as `none`. -/
def truncToInt (d : ℚ) : Option Int :=
  let t : Int := if 0 ≤ d then ⌊d⌋ else ⌈d⌉
  if INT_MIN ≤ t ∧ t ≤ INT_MAX then some t else none

/-- A pose candidate `i` of the solver: `angles` is the `cv::Vec3d` that
`cv::Rodrigues` followed by `getEulerAngles` computes from `iRotations[i]`
(OpenCV code, not modelled), `translation` is `iTranslations[i]`. -/
structure Candidate where
  angles : Vec3
  translation : Vec3
  deriving DecidableEq

/-- The variables the selection loop updates. -/
structure SelState where
  minPitch : Int
  iBestSolutionIndex : Int
  iAngles : List Vec3
  deriving DecidableEq

/-- The body of `for (int i = 0; i < solutionCount; i++)` for candidate `i`:
push the angles, `int absolutePitch = std::abs(angles[0])`, and take the
candidate when `minPitch > absolutePitch`. -/
def selectStep (st : SelState) (i : Int) (c : Candidate) : Option SelState :=
  (truncToInt |c.angles.v0|).map fun absolutePitch =>
    if st.minPitch > absolutePitch then
      { minPitch := absolutePitch, iBestSolutionIndex := i, iAngles := st.iAngles ++ [c.angles] }
    else
      { st with iAngles := st.iAngles ++ [c.angles] }

/-- The selection loop from index `i` on, over the candidates not yet visited. -/
def selectLoop : List Candidate → Int → SelState → Option SelState
  | [], _, st => some st
  | c :: rest, i, st => (selectStep st i c).bind fun st1 => selectLoop rest (i + 1) st1

/-- The selection after `iAngles.clear(); iBestSolutionIndex = -1;` with
`minPitch = INT_MAX` (the guard `solutionCount > 0` only skips an empty loop). -/
def selectBest (candidates : List Candidate) : Option SelState :=
  selectLoop candidates 0 { minPitch := INT_MAX, iBestSolutionIndex := -1, iAngles := [] }

/-! ## Tracker state, model and camera -/

/-- The settings the tracker reads (`iSettings`): cap dimensions in
millimetres and the requested camera mode. -/
structure Settings where
  cap_x : Int
  cap_y : Int
  cap_z : Int
  cam_fps : Int
  cam_res_x : Int
  cam_res_y : Int
  deriving DecidableEq

/-- The fields of `iCameraInfo` that the tracker reads or writes. -/
structure CameraInfo where
  fps : Int
  width : Int
  height : Int
  focalLengthX : ℚ
  focalLengthY : ℚ
  principalPointX : ℚ
  principalPointY : ℚ
  radialDistortionSecondOrder : ℚ
  radialDistortionFourthOrder : ℚ
  radialDistortionSixthOrder : ℚ
  deriving DecidableEq

/-- The camera as an explicit state: whether the device is open, and what the
coming calls of `start` will do, each outcome being the returned flag and the
camera info the device reports back. With no outcome left `start` fails. -/
structure Camera where
  isOpen : Bool
  pending : List (Bool × CameraInfo)
  deriving DecidableEq

/-- The call `camera->start(iCameraInfo)`: returns the result, the info as the
device left it, and the camera afterwards. -/
def Camera.start (cam : Camera) (info : CameraInfo) : Bool × CameraInfo × Camera :=
  match cam.pending with
  | [] => (false, info, cam)
  | (res, reported) :: rest => (res, reported, { isOpen := res, pending := rest })

/-- The member variables of `Tracker` that matter to the pipeline.
`iAngles[i]` stands for the pair `iRotations[i]`, `iAngles[i]`. -/
structure Tracker where
  iSettings : Settings
  camera : Option Camera
  iCameraInfo : CameraInfo
  iCameraMatrix : List ℚ
  iDistCoeffsMatrix : List ℚ
  iModel : List Vec3
  iPoints : List Point
  iTrackedPoints : List Point
  iAngles : List Vec3
  iTranslations : List Vec3
  iBestSolutionIndex : Int
  iBestAngles : Vec3
  iBestTranslation : Vec3
  ever_success : Bool
  deriving DecidableEq

/-- Modelled from the spec: `KPointCount` is declared in `tracker-easy.h`,
which is not among the sources; the spec gives the required marker count as 3. -/
def KPointCount : Nat := 3

/-- Rounding of a rational to the nearest integer, ties to the even one. -/
def roundHalfEven (q : ℚ) : Int :=
  let f : Int := ⌊q⌋
  if q - f < 1 / 2 then f
  else if 1 / 2 < q - f then f + 1
  else if f % 2 = 0 then f else f + 1

/-- Rounding to the nearest value of a binary floating-point format with `p`
significand bits and least normal exponent `emin`, ties to even. The values
met here are far below the largest finite value of either format. -/
def roundToBinary (p : Nat) (emin : Int) (q : ℚ) : ℚ :=
  if q = 0 then 0
  else
    let e : Int := max (Int.log 2 |q|) emin
    let ulp : ℚ := (2 : ℚ) ^ (e - ((p : Int) - 1))
    (roundHalfEven (q / ulp) : ℚ) * ulp

/-- The result of a `double` operation whose exact value is `q`. -/
def roundToDouble (q : ℚ) : ℚ := roundToBinary 53 (-1022) q

/-- The conversion of a `double` to `float`, as in the arguments of
`cv::Point3f(...)`. -/
def narrowToFloat (q : ℚ) : ℚ := roundToBinary 24 (-126) q

/-- The value of a 32-bit `int` computation whose exact result is `v`
(wrap-around). -/
def wrapInt (v : Int) : Int := (v + 2147483648) % 4294967296 - 2147483648

/-- The unary minus of `int`, as in `-iSettings.cap_x`. -/
def negInt (v : Int) : Int := wrapInt (-v)

/-- One coordinate of a model point: the `int` `v` divided by `10.0` in
`double`, then narrowed to the `float` that `cv::Point3f` stores. -/
def modelCoord (v : Int) : ℚ := narrowToFloat (roundToDouble ((v : ℚ) / 10))

/-- The model built by `Tracker::CreateModelFromSettings`: right, left, top,
millimetres converted to centimetres. The settings hold `int` values. -/
def modelOfSettings (st : Settings) : List Vec3 :=
  [ ⟨modelCoord st.cap_x, modelCoord st.cap_z, modelCoord (negInt st.cap_y)⟩,
    ⟨modelCoord (negInt st.cap_x), modelCoord st.cap_z, modelCoord (negInt st.cap_y)⟩,
    ⟨0, 0, 0⟩ ]

/-- The method `Tracker::CreateModelFromSettings`. -/
def CreateModelFromSettings (s : Tracker) : Tracker :=
  { s with iModel := modelOfSettings s.iSettings }

/-- The 3x3 camera matrix, row by row. -/
def cameraMatrixOf (info : CameraInfo) : List ℚ :=
  [ info.focalLengthX, 0, info.principalPointX,
    0, info.focalLengthY, info.principalPointY,
    0, 0, 1 ]

/-- The 8x1 distortion coefficients `k1, k2, p1, p2, k3, k4, k5, k6`. -/
def distCoeffsOf (info : CameraInfo) : List ℚ :=
  [ 0, info.radialDistortionSecondOrder, 0, 0, 0,
    info.radialDistortionFourthOrder, 0, info.radialDistortionSixthOrder ]

/-- The method `Tracker::CreateCameraIntrinsicsMatrices`. -/
def CreateCameraIntrinsicsMatrices (s : Tracker) : Tracker :=
  { s with iCameraMatrix := cameraMatrixOf s.iCameraInfo,
           iDistCoeffsMatrix := distCoeffsOf s.iCameraInfo }

/-- The method `Tracker::maybe_reopen_camera`; `none` when `camera` is null. -/
def maybe_reopen_camera (s : Tracker) : Option (Tracker × Bool) :=
  match s.camera with
  | none => none
  | some cam =>
    if cam.isOpen then some (s, true)
    else
      let info : CameraInfo :=
        { s.iCameraInfo with fps := s.iSettings.cam_fps, width := s.iSettings.cam_res_x,
                             height := s.iSettings.cam_res_y }
      let r := cam.start info
      some (CreateCameraIntrinsicsMatrices { s with iCameraInfo := r.2.1, camera := some r.2.2 },
            r.1)

/-! ## One cycle of `Tracker::run` -/

/-- The arguments of one call of `cv::solveP3P`. -/
structure SolverCall where
  model : List Vec3
  tracked : List Point
  cameraMatrix : List ℚ
  distCoeffs : List ℚ
  deriving DecidableEq

/-- The solver `cv::solveP3P` (with the Euler conversion of each rotation): a
function of its arguments, otherwise unknown. -/
abbrev Solver := SolverCall → List Candidate

/-- What the collaborators deliver in one cycle: the flag `new_frame` that
`camera->get_frame()` reports, and the points `ExtractPoints` finds in that
frame. -/
structure CycleInput where
  new_frame : Bool
  extracted : List Point
  deriving DecidableEq

/-- The solver call made from state `s` with the correspondence `tracked`:
`cv::solveP3P(iModel, iTrackedPoints, iCameraMatrix, iDistCoeffsMatrix, ...)`. -/
def callOf (s : Tracker) (tracked : List Point) : SolverCall :=
  { model := s.iModel, tracked := tracked, cameraMatrix := s.iCameraMatrix,
    distCoeffs := s.iDistCoeffsMatrix }

/-- The state at the end of the branch `if (success) { ... }`, given the
correspondence, the solver output and the outcome of the selection loop. -/
def afterSelect (s : Tracker) (tracked : List Point) (candidates : List Candidate)
    (sel : SelState) : Tracker :=
  { s with ever_success := true, iTrackedPoints := tracked,
           iTranslations := candidates.map Candidate.translation,
           iAngles := sel.iAngles, iBestSolutionIndex := sel.iBestSolutionIndex }

/-- The branch `if (success) { ... }`: set the flag, build the correspondence,
call the solver and run the selection loop. Returns the state and the solver
call made. -/
def solveAndSelect (solveP3P : Solver) (s : Tracker) : Option (Tracker × SolverCall) :=
  (resolveCorrespondence s.iPoints).bind fun tracked =>
    (selectBest (solveP3P (callOf s tracked))).map fun sel =>
      (afterSelect s tracked (solveP3P (callOf s tracked)) sel, callOf s tracked)

/-- The publish step under `data_lock`:
`if (iBestSolutionIndex != -1) { iBestAngles = ...; iBestTranslation = ...; }`. -/
def publish (s : Tracker) : Option Tracker :=
  if s.iBestSolutionIndex ≠ -1 then
    (vecAt s.iAngles s.iBestSolutionIndex).bind fun a =>
      (vecAt s.iTranslations s.iBestSolutionIndex).map fun t =>
        { s with iBestAngles := a, iBestTranslation := t }
  else some s

/-- The branch `if (new_frame) { ... }` up to the end of the critical section.
Returns the state and the solver calls made (none or one). -/
def processFrame (solveP3P : Solver) (s : Tracker) (extracted : List Point) :
    Option (Tracker × List SolverCall) :=
  let s1 := { s with iPoints := extracted }
  let success : Bool := decide (KPointCount ≤ s1.iPoints.length)
  if success then
    (solveAndSelect solveP3P s1).bind fun r =>
      (publish r.1).map fun s3 => (s3, [r.2])
  else
    (publish s1).map fun s3 => (s3, [])

/-- One iteration of the `while` loop of `Tracker::run`. Preview drawing,
pacing and the FPS counters touch none of the fields above and are left out. -/
def cycle (solveP3P : Solver) (s : Tracker) (inp : CycleInput) :
    Option (Tracker × List SolverCall) :=
  let new_frame : Bool := if s.camera.isSome then inp.new_frame else false
  if new_frame then processFrame solveP3P s inp.extracted
  else some (s, [])

/-- The loop of `Tracker::run` over the cycles that take place before the
interruption request; collects the solver calls. -/
def runCycles (solveP3P : Solver) : Tracker → List CycleInput → Option (Tracker × List SolverCall)
  | s, [] => some (s, [])
  | s, inp :: rest =>
    (cycle solveP3P s inp).bind fun r1 =>
      (runCycles solveP3P r1.1 rest).map fun r2 => (r2.1, r1.2 ++ r2.2)

/-- The method `Tracker::run`: one `maybe_reopen_camera`, then the loop. -/
def run (solveP3P : Solver) (s : Tracker) (inputs : List CycleInput) :
    Option (Tracker × List SolverCall) :=
  (maybe_reopen_camera s).bind fun r => runCycles solveP3P r.1 inputs

/-! ## Consumer side -/

/-- Modelled from the spec: the axis indices `TX .. Roll` come from the plugin
API header, which is not among the sources; the spec names the six channels
only. The indices are pairwise distinct and below 6. -/
def TX : Nat := 0

/-- See `TX`. -/
def TY : Nat := 1

/-- See `TX`. -/
def TZ : Nat := 2

/-- See `TX`. -/
def Yaw : Nat := 3

/-- See `TX`. -/
def Pitch : Nat := 4

/-- See `TX`. -/
def Roll : Nat := 5

/-- The memory behind the pointer `double *data`: offset to value. -/
abbrev Buffer := Nat → ℚ

/-- The six assignments of `Tracker::data`, in source order. -/
def writePose (angles translation : Vec3) (buf : Buffer) : Buffer :=
  let b1 := Function.update buf Yaw angles.v1
  let b2 := Function.update b1 Pitch angles.v0
  let b3 := Function.update b2 Roll angles.v2
  let b4 := Function.update b3 TX translation.v0
  let b5 := Function.update b4 TY translation.v1
  Function.update b5 TZ translation.v2

/-- The method `Tracker::data`: returns the tracker and the buffer afterwards. -/
def data (s : Tracker) (buf : Buffer) : Tracker × Buffer :=
  if s.ever_success then (s, writePose s.iBestAngles s.iBestTranslation buf)
  else (s, buf)

/-- The method `Tracker::center`. -/
def center (s : Tracker) : Tracker × Bool := (s, false)

/-- Modelled from the spec: the member initialisers are in `tracker-easy.h`,
which is not among the sources. The state after the constructor and
`start_tracker`: model built from the settings, a camera object present, no
solution index (`-1`), Success Flag clear, vectors and matrices empty; `a0`,
`t0` are whatever `iBestAngles`, `iBestTranslation` hold at construction. -/
def Tracker.init (st : Settings) (cam : Camera) (info : CameraInfo) (a0 t0 : Vec3) : Tracker :=
  CreateModelFromSettings
    { iSettings := st, camera := some cam, iCameraInfo := info,
      iCameraMatrix := [], iDistCoeffsMatrix := [], iModel := [],
      iPoints := [], iTrackedPoints := [], iAngles := [], iTranslations := [],
      iBestSolutionIndex := -1, iBestAngles := a0, iBestTranslation := t0,
      ever_success := false }

/-! ## Histories and reachable states -/

/-- The candidate that the selection loop picks among the solver output for
one solver call, when it picks one. -/
def selectedOf (solveP3P : Solver) (call : SolverCall) : Option Candidate :=
  (selectBest (solveP3P call)).bind fun sel => vecAt (solveP3P call) sel.iBestSolutionIndex

/-- The candidate selected in the most recent solver call that led to a
selection. -/
def lastSelected (solveP3P : Solver) (calls : List SolverCall) : Option Candidate :=
  (calls.filterMap (selectedOf solveP3P)).getLast?

/-- The pose of a selected candidate, or the fallback when there is none. -/
def poseOr (c : Option Candidate) (d : Vec3 × Vec3) : Vec3 × Vec3 :=
  match c with
  | some c => (c.angles, c.translation)
  | none => d

/-- A cycle input with a new frame in which enough points are detected. -/
def detects (inp : CycleInput) : Bool :=
  inp.new_frame && decide (KPointCount ≤ inp.extracted.length)

/-- The states the tracker can be in between operations: the constructed
state, followed by any sequence of loop cycles, camera reopen attempts,
settings changes, and consumer calls. -/
inductive Reachable (solveP3P : Solver) : Tracker → Prop
  | init (st : Settings) (cam : Camera) (info : CameraInfo) (a0 t0 : Vec3) :
      Reachable solveP3P (Tracker.init st cam info a0 t0)
  | cycle {s s1 : Tracker} {inp : CycleInput} {calls : List SolverCall} :
      Reachable solveP3P s → cycle solveP3P s inp = some (s1, calls) → Reachable solveP3P s1
  | reopen {s s1 : Tracker} {r : Bool} :
      Reachable solveP3P s → maybe_reopen_camera s = some (s1, r) → Reachable solveP3P s1
  | settings {s : Tracker} (st : Settings) :
      Reachable solveP3P s → Reachable solveP3P { s with iSettings := st }
  | data {s : Tracker} (buf : Buffer) :
      Reachable solveP3P s → Reachable solveP3P (data s buf).1
  | center {s : Tracker} :
      Reachable solveP3P s → Reachable solveP3P (center s).1

/-- The states reachable, by the same operations, from the tracker that was
constructed with the settings `st0`. -/
inductive ReachableFrom (solveP3P : Solver) (st0 : Settings) : Tracker → Prop
  | init (cam : Camera) (info : CameraInfo) (a0 t0 : Vec3) :
      ReachableFrom solveP3P st0 (Tracker.init st0 cam info a0 t0)
  | cycle {s s1 : Tracker} {inp : CycleInput} {calls : List SolverCall} :
      ReachableFrom solveP3P st0 s → cycle solveP3P s inp = some (s1, calls) →
      ReachableFrom solveP3P st0 s1
  | reopen {s s1 : Tracker} {r : Bool} :
      ReachableFrom solveP3P st0 s → maybe_reopen_camera s = some (s1, r) →
      ReachableFrom solveP3P st0 s1
  | settings {s : Tracker} (st : Settings) :
      ReachableFrom solveP3P st0 s → ReachableFrom solveP3P st0 { s with iSettings := st }
  | data {s : Tracker} (buf : Buffer) :
      ReachableFrom solveP3P st0 s → ReachableFrom solveP3P st0 (data s buf).1
  | center {s : Tracker} :
      ReachableFrom solveP3P st0 s → ReachableFrom solveP3P st0 (center s).1

/-- The published pose agrees with the stored solution the index points to. -/
def PoseInv (s : Tracker) : Prop :=
  s.iBestSolutionIndex ≠ -1 →
    vecAt s.iAngles s.iBestSolutionIndex = some s.iBestAngles ∧
    vecAt s.iTranslations s.iBestSolutionIndex = some s.iBestTranslation

/-! ## Interleaving of the publish step with a concurrent `data` call -/

/-- The two threads: the loop of `Tracker::run` and the caller of
`Tracker::data`. -/
inductive Thread where
  | loop
  | consumer
  deriving DecidableEq

/-- Program points of the loop thread in a cycle that publishes the pose it
selected: the flag store, then the block under `data_lock`. The work between
the store and the lock touches no variable that `data` reads. -/
inductive LoopPc where
  | store
  | lock
  | angles
  | translation
  | unlock
  | finished
  deriving DecidableEq

/-- Program points of `Tracker::data`: the flag load, the block under
`data_lock` with its six assignments, and the return. -/
inductive DataPc where
  | load
  | lock
  | yaw
  | pitch
  | roll
  | tx
  | ty
  | tz
  | unlock
  | finished
  deriving DecidableEq

/-- The variables both threads access, the two program counters, and the
buffer of the consumer. -/
structure Conf where
  ever_success : Bool
  data_lock : Option Thread
  iBestAngles : Vec3
  iBestTranslation : Vec3
  loopPc : LoopPc
  dataPc : DataPc
  buf : Buffer

/-- One atomic step of the loop thread publishing `(a, t)`, that is
`iAngles[iBestSolutionIndex]` and `iTranslations[iBestSolutionIndex]`;
`none` when the thread waits for the lock or has finished. -/
def stepLoop (a t : Vec3) (c : Conf) : Option Conf :=
  match c.loopPc with
  | .store => some { c with ever_success := true, loopPc := .lock }
  | .lock =>
    if c.data_lock = none then some { c with data_lock := some .loop, loopPc := .angles }
    else none
  | .angles => some { c with iBestAngles := a, loopPc := .translation }
  | .translation => some { c with iBestTranslation := t, loopPc := .unlock }
  | .unlock => some { c with data_lock := none, loopPc := .finished }
  | .finished => none

/-- One atomic step of `Tracker::data`; `none` when the thread waits for the
lock or has returned. -/
def stepData (c : Conf) : Option Conf :=
  match c.dataPc with
  | .load => some { c with dataPc := if c.ever_success then .lock else .finished }
  | .lock =>
    if c.data_lock = none then some { c with data_lock := some .consumer, dataPc := .yaw }
    else none
  | .yaw => some { c with buf := Function.update c.buf Yaw c.iBestAngles.v1, dataPc := .pitch }
  | .pitch => some { c with buf := Function.update c.buf Pitch c.iBestAngles.v0, dataPc := .roll }
  | .roll => some { c with buf := Function.update c.buf Roll c.iBestAngles.v2, dataPc := .tx }
  | .tx => some { c with buf := Function.update c.buf TX c.iBestTranslation.v0, dataPc := .ty }
  | .ty => some { c with buf := Function.update c.buf TY c.iBestTranslation.v1, dataPc := .tz }
  | .tz =>
    some { c with buf := Function.update c.buf TZ c.iBestTranslation.v2, dataPc := .unlock }
  | .unlock => some { c with data_lock := none, dataPc := .finished }
  | .finished => none

/-- The scheduler picks a thread; a thread that cannot move leaves the
configuration as it is. -/
def stepThread (a t : Vec3) (c : Conf) (th : Thread) : Conf :=
  match th with
  | .loop => (stepLoop a t c).getD c
  | .consumer => (stepData c).getD c

/-- The configuration reached under a schedule. -/
def interleave (a t : Vec3) (c : Conf) (schedule : List Thread) : Conf :=
  schedule.foldl (stepThread a t) c

/-- Both threads at their first program point, the lock free, the store
holding the pose `(a0, t0)` published before. -/
def Conf.start (flag : Bool) (a0 t0 : Vec3) (buf : Buffer) : Conf :=
  { ever_success := flag, data_lock := none, iBestAngles := a0, iBestTranslation := t0,
    loopPc := .store, dataPc := .load, buf := buf }

/-- The buffer after the assignments of `data` that precede program point
`pc`, for the pose `(a, t)`. -/
def writtenBefore (pc : DataPc) (a t : Vec3) (buf : Buffer) : Buffer :=
  match pc with
  | .load | .lock | .yaw => buf
  | .pitch => Function.update buf Yaw a.v1
  | .roll => Function.update (Function.update buf Yaw a.v1) Pitch a.v0
  | .tx => Function.update (Function.update (Function.update buf Yaw a.v1) Pitch a.v0) Roll a.v2
  | .ty =>
    Function.update
      (Function.update (Function.update (Function.update buf Yaw a.v1) Pitch a.v0) Roll a.v2)
      TX t.v0
  | .tz =>
    Function.update
      (Function.update
        (Function.update (Function.update (Function.update buf Yaw a.v1) Pitch a.v0) Roll a.v2)
        TX t.v0)
      TY t.v1
  | .unlock | .finished => writePose a t buf

/-- Whether the loop thread holds `data_lock` at this program point. -/
def LoopPc.inside : LoopPc → Bool
  | .angles | .translation | .unlock => true
  | _ => false

/-- Whether `data` holds `data_lock` at this program point. -/
def DataPc.inside : DataPc → Bool
  | .load | .lock | .finished => false
  | _ => true

/-- The invariant of the interleaving, relative to the initial flag, the pose
`(a0, t0)` published before, the pose `(a, t)` being published, and the buffer
`buf0` the consumer passed in. -/
structure ConfInv (flag : Bool) (a0 t0 a t : Vec3) (buf0 : Buffer) (c : Conf) : Prop where
  flagged : c.ever_success = (flag || decide (c.loopPc ≠ LoopPc.store))
  lock : c.data_lock =
    if c.loopPc.inside then some Thread.loop
    else if c.dataPc.inside then some Thread.consumer else none
  exclusive : (c.loopPc.inside && c.dataPc.inside) = false
  pose : (c.iBestAngles, c.iBestTranslation) =
    match c.loopPc with
    | .store | .lock | .angles => (a0, t0)
    | .translation => (a, t0)
    | .unlock | .finished => (a, t)
  buffer :
    match c.dataPc with
    | .load | .lock => c.buf = buf0
    | .finished =>
      (flag = false ∧ c.buf = buf0) ∨ c.buf = writePose a0 t0 buf0 ∨
        c.buf = writePose a t buf0
    | pc => c.buf = writtenBefore pc c.iBestAngles c.iBestTranslation buf0

/-! ## Concrete inputs -/

/-- Three detected points, two of them in image column 0, the third on top. -/
def pointsLeftEdge : List Point := [⟨0, 5⟩, ⟨0, 7⟩, ⟨3, 1⟩]

/-- Cap dimensions and camera mode used in the examples. -/
def settings0 : Settings :=
  { cap_x := 60, cap_y := 80, cap_z := 100, cam_fps := 30, cam_res_x := 640, cam_res_y := 480 }

/-- A camera info with every field zero. -/
def info0 : CameraInfo :=
  { fps := 0, width := 0, height := 0, focalLengthX := 0, focalLengthY := 0,
    principalPointX := 0, principalPointY := 0, radialDistortionSecondOrder := 0,
    radialDistortionFourthOrder := 0, radialDistortionSixthOrder := 0 }

/-- The info a device reports once it has been started. -/
def infoDev : CameraInfo :=
  { fps := 30, width := 640, height := 480, focalLengthX := 500, focalLengthY := 500,
    principalPointX := 320, principalPointY := 240, radialDistortionSecondOrder := 0,
    radialDistortionFourthOrder := 0, radialDistortionSixthOrder := 0 }

/-- A closed camera whose first start succeeds. -/
def camReady : Camera := { isOpen := false, pending := [(true, infoDev)] }

/-- A closed camera whose start fails three times and succeeds the fourth
time. -/
def camLate : Camera :=
  { isOpen := false,
    pending := [(false, info0), (false, info0), (false, info0), (true, infoDev)] }

/-- The zero vector. -/
def zero3 : Vec3 := ⟨0, 0, 0⟩

/-- Three well separated detected points: left, right, top. -/
def pointsUpright : List Point := [⟨3, 9⟩, ⟨7, 8⟩, ⟨5, 1⟩]

/-- A solver that finds no pose. -/
def noSolution : Solver := fun _ => []

/-- Two poses, the second with the smaller pitch. -/
def twoPoses : List Candidate :=
  [ { angles := ⟨30, 1, 2⟩, translation := ⟨3, 4, 5⟩ },
    { angles := ⟨-2, 10, 20⟩, translation := ⟨6, 7, 8⟩ } ]

/-- The correspondence of `pointsUpright`: right, left, top. -/
def trackedUpright : List Point := [⟨7, 8⟩, ⟨3, 9⟩, ⟨5, 1⟩]

/-- Three detected points on one line, and their correspondence. -/
def pointsDiagonal : List Point := [⟨1, 3⟩, ⟨2, 2⟩, ⟨3, 1⟩]

/-- The correspondence of `pointsDiagonal`: right, left, top. -/
def trackedDiagonal : List Point := [⟨2, 2⟩, ⟨1, 3⟩, ⟨3, 1⟩]

/-- A solver that finds `twoPoses` for `trackedUpright` and no pose for any
other correspondence. -/
def solveUpright : Solver := fun call =>
  if call.tracked = trackedUpright then twoPoses else []

/-- An output buffer holding 7 everywhere. -/
def sevens : Buffer := fun _ => 7

/-- The tracker after construction with `camReady` and one reopen. -/
def trackerOpened : Tracker :=
  { iSettings := settings0, camera := some { isOpen := true, pending := [] },
    iCameraInfo := infoDev, iCameraMatrix := cameraMatrixOf infoDev,
    iDistCoeffsMatrix := distCoeffsOf infoDev, iModel := modelOfSettings settings0,
    iPoints := [], iTrackedPoints := [], iAngles := [], iTranslations := [],
    iBestSolutionIndex := -1, iBestAngles := zero3, iBestTranslation := zero3,
    ever_success := false }

/-- The tracker `trackerOpened` after one cycle on `pointsUpright` with the
solver `solveUpright`. -/
def trackerTracked : Tracker :=
  { trackerOpened with
    iPoints := pointsUpright, iTrackedPoints := trackedUpright,
    iAngles := [⟨30, 1, 2⟩, ⟨-2, 10, 20⟩], iTranslations := [⟨3, 4, 5⟩, ⟨6, 7, 8⟩],
    iBestSolutionIndex := 1, iBestAngles := ⟨-2, 10, 20⟩, iBestTranslation := ⟨6, 7, 8⟩,
    ever_success := true }

/-- The tracker `trackerOpened` after one cycle on `pointsUpright` with the
solver `noSolution`. -/
def trackerNoPose : Tracker :=
  { trackerOpened with
    iPoints := pointsUpright, iTrackedPoints := trackedUpright,
    ever_success := true }

/-- A candidate with the given pitch and nothing else. -/
def candidateWithPitch (pitch : ℚ) : Candidate :=
  { angles := ⟨pitch, 0, 0⟩, translation := ⟨0, 0, 0⟩ }

/-- A schedule in which `data` loads the flag first, then waits for the lock
while the loop thread publishes. -/
def scheduleContended : List Thread :=
  [ .consumer, .loop, .loop, .loop, .consumer, .loop, .consumer, .loop,
    .consumer, .consumer, .consumer, .consumer, .consumer, .consumer, .consumer, .consumer ]

/-! ## Lemmas on vectors and the selection loop -/

theorem vecAt_map {α β : Type} (f : α → β) (v : List α) (i : Int) :
    vecAt (v.map f) i = (vecAt v i).map f := by
  unfold vecAt
  split <;> simp

theorem vecAt_neg_one {α : Type} (v : List α) : vecAt v (-1) = none := by
  simp [vecAt]

theorem selectStep_spec {st st1 : SelState} {i : Int} {c : Candidate}
    (h : selectStep st i c = some st1) :
    st1.iAngles = st.iAngles ++ [c.angles] ∧
      (st1.iBestSolutionIndex = st.iBestSolutionIndex ∨ st1.iBestSolutionIndex = i) := by
  unfold selectStep at h
  cases ht : truncToInt |c.angles.v0| with
  | none => simp [ht] at h
  | some a =>
    simp only [ht, Option.map_some', Option.some.injEq] at h
    split at h <;> subst h <;> simp

theorem selectLoop_spec (cands : List Candidate) :
    ∀ (i : Int) (st sel : SelState), selectLoop cands i st = some sel →
      sel.iAngles = st.iAngles ++ cands.map Candidate.angles ∧
        (sel.iBestSolutionIndex = st.iBestSolutionIndex ∨
          (i ≤ sel.iBestSolutionIndex ∧ sel.iBestSolutionIndex < i + cands.length)) := by
  induction cands with
  | nil =>
    intro i st sel h
    simp only [selectLoop, Option.some.injEq] at h
    subst h
    simp
  | cons c rest ih =>
    intro i st sel h
    simp only [selectLoop] at h
    cases hs : selectStep st i c with
    | none => simp [hs] at h
    | some st1 =>
      simp only [hs, Option.some_bind] at h
      obtain ⟨ha, hi⟩ := selectStep_spec hs
      obtain ⟨ha2, hi2⟩ := ih (i + 1) st1 sel h
      refine ⟨by simp [ha2, ha], ?_⟩
      simp only [List.length_cons, Nat.cast_add, Nat.cast_one]
      rcases hi2 with h2 | h2
      · rcases hi with h1 | h1
        · left; rw [h2, h1]
        · right; rw [h2, h1]; constructor <;> omega
      · right; constructor <;> omega

theorem selectBest_spec {cands : List Candidate} {sel : SelState}
    (h : selectBest cands = some sel) :
    sel.iAngles = cands.map Candidate.angles ∧
      (sel.iBestSolutionIndex = -1 ∨
        (0 ≤ sel.iBestSolutionIndex ∧ sel.iBestSolutionIndex < cands.length)) := by
  have := selectLoop_spec cands 0 _ sel h
  simpa using this

theorem selectBest_nil :
    selectBest [] = some { minPitch := INT_MAX, iBestSolutionIndex := -1, iAngles := [] } := rfl

/-! ## Lemmas on the cycle -/

theorem cycle_no_frame (solveP3P : Solver) (s : Tracker) (inp : CycleInput)
    (h : (s.camera.isSome && inp.new_frame) = false) : cycle solveP3P s inp = some (s, []) := by
  unfold cycle
  cases hc : s.camera.isSome <;> cases hn : inp.new_frame <;> simp_all

theorem cycle_shortfall (solveP3P : Solver) (s : Tracker) (inp : CycleInput)
    (h : (s.camera.isSome && inp.new_frame) = true) (hk : inp.extracted.length < KPointCount) :
    cycle solveP3P s inp =
      (publish { s with iPoints := inp.extracted }).map fun s3 => (s3, []) := by
  have hk2 : ¬ KPointCount ≤ inp.extracted.length := by omega
  simp only [Bool.and_eq_true] at h
  simp [cycle, processFrame, h.1, h.2, hk2]

theorem cycle_detect (solveP3P : Solver) (s : Tracker) (inp : CycleInput)
    (h : (s.camera.isSome && inp.new_frame) = true) (hk : KPointCount ≤ inp.extracted.length) :
    cycle solveP3P s inp =
      (resolveCorrespondence inp.extracted).bind fun tracked =>
        (selectBest (solveP3P (callOf s tracked))).bind fun sel =>
          (publish (afterSelect { s with iPoints := inp.extracted } tracked
              (solveP3P (callOf s tracked)) sel)).map fun s3 => (s3, [callOf s tracked]) := by
  simp only [Bool.and_eq_true] at h
  simp only [cycle, processFrame, h.1, h.2, hk, if_true, decide_True, solveAndSelect]
  cases resolveCorrespondence inp.extracted with
  | none => rfl
  | some tracked =>
    have hcall : callOf { s with iPoints := inp.extracted } tracked = callOf s tracked := rfl
    simp only [Option.some_bind, hcall]
    cases selectBest (solveP3P (callOf s tracked)) with
    | none => rfl
    | some sel => rfl

theorem publish_cases {s s1 : Tracker} (h : publish s = some s1) :
    (s.iBestSolutionIndex = -1 ∧ s1 = s) ∨
    (s.iBestSolutionIndex ≠ -1 ∧ ∃ a t,
        vecAt s.iAngles s.iBestSolutionIndex = some a ∧
        vecAt s.iTranslations s.iBestSolutionIndex = some t ∧
        s1 = { s with iBestAngles := a, iBestTranslation := t }) := by
  unfold publish at h
  by_cases hi : s.iBestSolutionIndex = -1
  · left
    simp only [hi, ne_eq, not_true_eq_false, if_false, Option.some.injEq] at h
    exact ⟨hi, h.symm⟩
  · right
    simp only [ne_eq, hi, not_false_eq_true, if_true] at h
    cases ha : vecAt s.iAngles s.iBestSolutionIndex with
    | none => simp [ha] at h
    | some a =>
      cases ht : vecAt s.iTranslations s.iBestSolutionIndex with
      | none => simp [ha, ht] at h
      | some t =>
        simp only [ha, ht, Option.some_bind, Option.map_some', Option.some.injEq] at h
        exact ⟨hi, a, t, rfl, rfl, h.symm⟩

theorem publish_of_inv {s : Tracker} (h : PoseInv s) : publish s = some s := by
  unfold publish
  by_cases hi : s.iBestSolutionIndex = -1
  · simp [hi]
  · obtain ⟨ha, ht⟩ := h hi
    simp [hi, ha, ht]

theorem publish_inv {s s1 : Tracker} (h : publish s = some s1) : PoseInv s1 := by
  rcases publish_cases h with ⟨hi, rfl⟩ | ⟨_, a, t, ha, ht, rfl⟩
  · intro hne; exact absurd hi hne
  · intro _; exact ⟨ha, ht⟩

theorem cycle_cases {solveP3P : Solver} {s s1 : Tracker} {inp : CycleInput}
    {calls : List SolverCall} (h : cycle solveP3P s inp = some (s1, calls)) :
    ((s.camera.isSome && inp.new_frame) = false ∧ s1 = s ∧ calls = []) ∨
    ((s.camera.isSome && inp.new_frame) = true ∧ inp.extracted.length < KPointCount ∧
        calls = [] ∧ publish { s with iPoints := inp.extracted } = some s1) ∨
    ((s.camera.isSome && inp.new_frame) = true ∧ KPointCount ≤ inp.extracted.length ∧
        ∃ tracked sel, resolveCorrespondence inp.extracted = some tracked ∧
          selectBest (solveP3P (callOf s tracked)) = some sel ∧
          calls = [callOf s tracked] ∧
          publish (afterSelect { s with iPoints := inp.extracted } tracked
            (solveP3P (callOf s tracked)) sel) = some s1) := by
  cases hf : (s.camera.isSome && inp.new_frame)
  · left
    rw [cycle_no_frame solveP3P s inp hf] at h
    simp only [Option.some.injEq, Prod.mk.injEq] at h
    exact ⟨rfl, h.1.symm, h.2.symm⟩
  · right
    by_cases hk : KPointCount ≤ inp.extracted.length
    · right
      rw [cycle_detect solveP3P s inp hf hk] at h
      cases hr : resolveCorrespondence inp.extracted with
      | none => simp [hr] at h
      | some tracked =>
        cases hs : selectBest (solveP3P (callOf s tracked)) with
        | none => simp [hr, hs] at h
        | some sel =>
          cases hp : publish (afterSelect { s with iPoints := inp.extracted } tracked
              (solveP3P (callOf s tracked)) sel) with
          | none => simp [hr, hs, hp] at h
          | some s3 =>
            simp only [hr, hs, hp, Option.some_bind, Option.map_some', Option.some.injEq,
              Prod.mk.injEq] at h
            exact ⟨rfl, hk, tracked, sel, rfl, hs, h.2.symm, by rw [hp, h.1]⟩
    · left
      have hk2 : inp.extracted.length < KPointCount := by omega
      rw [cycle_shortfall solveP3P s inp hf hk2] at h
      cases hp : publish { s with iPoints := inp.extracted } with
      | none => simp [hp] at h
      | some s3 =>
        simp only [hp, Option.map_some', Option.some.injEq, Prod.mk.injEq] at h
        exact ⟨rfl, hk2, h.2.symm, by rw [h.1]⟩

theorem cycle_inv {solveP3P : Solver} {s s1 : Tracker} {inp : CycleInput}
    {calls : List SolverCall} (h : cycle solveP3P s inp = some (s1, calls))
    (hinv : PoseInv s) : PoseInv s1 := by
  rcases cycle_cases h with ⟨_, rfl, _⟩ | ⟨_, _, _, hp⟩ | ⟨_, _, _, _, _, _, _, hp⟩
  · exact hinv
  · exact publish_inv hp
  · exact publish_inv hp

theorem cycle_view {solveP3P : Solver} {s s1 : Tracker} {inp : CycleInput}
    {calls : List SolverCall} (h : cycle solveP3P s inp = some (s1, calls)) :
    s1.iSettings = s.iSettings ∧ s1.camera = s.camera ∧ s1.iCameraInfo = s.iCameraInfo ∧
      s1.iCameraMatrix = s.iCameraMatrix ∧ s1.iDistCoeffsMatrix = s.iDistCoeffsMatrix ∧
      s1.iModel = s.iModel := by
  rcases cycle_cases h with ⟨_, rfl, _⟩ | ⟨_, _, _, hp⟩ | ⟨_, _, _, _, _, _, _, hp⟩
  · simp
  · rcases publish_cases hp with ⟨_, rfl⟩ | ⟨_, a, t, _, _, rfl⟩ <;> simp
  · rcases publish_cases hp with ⟨_, rfl⟩ | ⟨_, a, t, _, _, rfl⟩ <;> simp [afterSelect]

theorem cycle_flag {solveP3P : Solver} {s s1 : Tracker} {inp : CycleInput}
    {calls : List SolverCall} (h : cycle solveP3P s inp = some (s1, calls)) :
    s1.ever_success = (s.ever_success || (s.camera.isSome && detects inp)) := by
  unfold detects
  rcases cycle_cases h with ⟨hf, rfl, _⟩ | ⟨hf, hk, _, hp⟩ | ⟨hf, hk, _, _, _, _, _, hp⟩
  · cases hc : s1.camera.isSome <;> cases hn : inp.new_frame <;> simp_all
  · have hk2 : ¬ KPointCount ≤ inp.extracted.length := by omega
    simp only [Bool.and_eq_true] at hf
    rcases publish_cases hp with ⟨_, rfl⟩ | ⟨_, a, t, _, _, rfl⟩ <;> simp [hf.1, hf.2, hk2]
  · simp only [Bool.and_eq_true] at hf
    rcases publish_cases hp with ⟨_, rfl⟩ | ⟨_, a, t, _, _, rfl⟩ <;>
      simp [hf.1, hf.2, hk, afterSelect]

theorem lastSelected_append (solveP3P : Solver) (c1 c2 : List SolverCall) (d : Vec3 × Vec3) :
    poseOr (lastSelected solveP3P (c1 ++ c2)) d =
      poseOr (lastSelected solveP3P c2) (poseOr (lastSelected solveP3P c1) d) := by
  unfold lastSelected
  rw [List.filterMap_append, List.getLast?_append]
  cases (List.filterMap (selectedOf solveP3P) c2).getLast? <;> rfl

theorem cycle_pose {solveP3P : Solver} {s s1 : Tracker} {inp : CycleInput}
    {calls : List SolverCall} (h : cycle solveP3P s inp = some (s1, calls))
    (hinv : PoseInv s) :
    (s1.iBestAngles, s1.iBestTranslation) =
      poseOr (lastSelected solveP3P calls) (s.iBestAngles, s.iBestTranslation) := by
  rcases cycle_cases h with ⟨_, rfl, rfl⟩ | ⟨_, _, rfl, hp⟩ |
    ⟨_, _, tracked, sel, _, hs, rfl, hp⟩
  · rfl
  · have hinv1 : PoseInv { s with iPoints := inp.extracted } := hinv
    rw [publish_of_inv hinv1] at hp
    simp only [Option.some.injEq] at hp
    subst hp
    rfl
  · obtain ⟨hang, _⟩ := selectBest_spec hs
    have hsel : lastSelected solveP3P [callOf s tracked] =
        vecAt (solveP3P (callOf s tracked)) sel.iBestSolutionIndex := by
      have h1 : selectedOf solveP3P (callOf s tracked) =
          vecAt (solveP3P (callOf s tracked)) sel.iBestSolutionIndex := by
        unfold selectedOf
        rw [hs]
        rfl
      unfold lastSelected
      cases hv : vecAt (solveP3P (callOf s tracked)) sel.iBestSolutionIndex <;>
        simp [List.filterMap_cons, h1, hv]
    rw [hsel]
    rcases publish_cases hp with ⟨hi, rfl⟩ | ⟨_, a, t, ha, ht, rfl⟩
    · have hi1 : sel.iBestSolutionIndex = -1 := hi
      rw [hi1, vecAt_neg_one]
      rfl
    · have ha1 : vecAt sel.iAngles sel.iBestSolutionIndex = some a := ha
      have ht1 : vecAt ((solveP3P (callOf s tracked)).map Candidate.translation)
          sel.iBestSolutionIndex = some t := ht
      rw [hang, vecAt_map] at ha1
      rw [vecAt_map] at ht1
      cases hv : vecAt (solveP3P (callOf s tracked)) sel.iBestSolutionIndex with
      | none => simp [hv] at ha1
      | some c =>
        simp only [hv, Option.map_some', Option.some.injEq] at ha1 ht1
        simp [poseOr, ha1, ht1]

theorem runCycles_spec (solveP3P : Solver) (inputs : List CycleInput) :
    ∀ (s s1 : Tracker) (calls : List SolverCall),
      runCycles solveP3P s inputs = some (s1, calls) → PoseInv s →
        PoseInv s1 ∧ s1.camera = s.camera ∧ s1.iModel = s.iModel ∧
        s1.iCameraMatrix = s.iCameraMatrix ∧ s1.iDistCoeffsMatrix = s.iDistCoeffsMatrix ∧
        s1.ever_success = (s.ever_success || (s.camera.isSome && inputs.any detects)) ∧
        (s1.iBestAngles, s1.iBestTranslation) =
          poseOr (lastSelected solveP3P calls) (s.iBestAngles, s.iBestTranslation) := by
  induction inputs with
  | nil =>
    intro s s1 calls h hinv
    simp only [runCycles, Option.some.injEq, Prod.mk.injEq] at h
    obtain ⟨rfl, rfl⟩ := h
    simp [hinv, lastSelected, poseOr]
  | cons inp rest ih =>
    intro s s1 calls h hinv
    simp only [runCycles] at h
    cases hc : cycle solveP3P s inp with
    | none => simp [hc] at h
    | some r1 =>
      obtain ⟨sa, ca⟩ := r1
      simp only [hc, Option.some_bind] at h
      cases hr : runCycles solveP3P sa rest with
      | none => simp [hr] at h
      | some r2 =>
        obtain ⟨sb, cb⟩ := r2
        simp only [hr, Option.map_some', Option.some.injEq, Prod.mk.injEq] at h
        obtain ⟨rfl, rfl⟩ := h
        obtain ⟨_, hcam, _, _, _, hmodel⟩ := cycle_view hc
        obtain ⟨_, _, _, _, hmat, _⟩ := cycle_view hc
        obtain ⟨_, _, _, _, _, _⟩ := cycle_view hc
        have hv := cycle_view hc
        obtain ⟨i1, i2, i3, i4, i5, i6, i7⟩ := ih sa sb cb hr (cycle_inv hc hinv)
        refine ⟨i1, by rw [i2, hcam], by rw [i3, hmodel], by rw [i4, hv.2.2.2.1],
          by rw [i5, hv.2.2.2.2.1], ?_, ?_⟩
        · rw [i6, cycle_flag hc, hcam, List.any_cons]
          cases s.ever_success <;> cases s.camera.isSome <;> cases detects inp <;> simp
        · rw [i7, cycle_pose hc hinv, lastSelected_append]

theorem reopen_keeps {s s1 : Tracker} {r : Bool} (h : maybe_reopen_camera s = some (s1, r)) :
    s1.camera.isSome = true ∧ s1.iModel = s.iModel ∧ s1.ever_success = s.ever_success ∧
      s1.iAngles = s.iAngles ∧ s1.iTranslations = s.iTranslations ∧
      s1.iBestSolutionIndex = s.iBestSolutionIndex ∧ s1.iBestAngles = s.iBestAngles ∧
      s1.iBestTranslation = s.iBestTranslation := by
  unfold maybe_reopen_camera at h
  cases hc : s.camera with
  | none => simp [hc] at h
  | some cam =>
    simp only [hc] at h
    by_cases ho : cam.isOpen = true
    · simp only [ho, if_true, Option.some.injEq, Prod.mk.injEq] at h
      obtain ⟨rfl, _⟩ := h
      simp [hc]
    · simp only [ho, Bool.false_eq_true, if_false, Option.some.injEq, Prod.mk.injEq] at h
      obtain ⟨rfl, _⟩ := h
      simp [CreateCameraIntrinsicsMatrices]

theorem reopen_inv {s s1 : Tracker} {r : Bool} (h : maybe_reopen_camera s = some (s1, r))
    (hinv : PoseInv s) : PoseInv s1 := by
  obtain ⟨_, _, _, h4, h5, h6, h7, h8⟩ := reopen_keeps h
  unfold PoseInv
  rw [h4, h5, h6, h7, h8]
  exact hinv

theorem init_inv (st : Settings) (cam : Camera) (info : CameraInfo) (a0 t0 : Vec3) :
    PoseInv (Tracker.init st cam info a0 t0) := by
  intro hne
  exact absurd rfl hne

theorem reachable_inv {solveP3P : Solver} {s : Tracker} (h : Reachable solveP3P s) :
    PoseInv s ∧ s.camera.isSome = true ∧ ∃ st, s.iModel = modelOfSettings st := by
  induction h with
  | init st cam info a0 t0 => exact ⟨init_inv st cam info a0 t0, rfl, st, rfl⟩
  | cycle _ hc ih =>
    obtain ⟨_, hcam, _, _, _, hmodel⟩ := cycle_view hc
    exact ⟨cycle_inv hc ih.1, by rw [hcam]; exact ih.2.1, by rw [hmodel]; exact ih.2.2⟩
  | reopen _ hr ih =>
    obtain ⟨h1, h2, _⟩ := reopen_keeps hr
    exact ⟨reopen_inv hr ih.1, h1, by rw [h2]; exact ih.2.2⟩
  | settings st _ ih => exact ih
  | data buf _ ih =>
    have : ∀ (s : Tracker), (data s buf).1 = s := by
      intro s; unfold data; split <;> rfl
    rw [this]; exact ih
  | center _ ih => exact ih

theorem resolve_length {iPoints tracked : List Point}
    (h : resolveCorrespondence iPoints = some tracked) : tracked.length = 3 := by
  unfold resolveCorrespondence at h
  simp only [bind, pure, Option.bind_eq_some] at h
  obtain ⟨_, _, _, _, _, _, _, _, h⟩ := h
  simp only [Option.some.injEq] at h
  rw [← h]
  rfl

/-! ## Lemmas on the interleaving -/

theorem confInv_start (flag : Bool) (a0 t0 a t : Vec3) (buf0 : Buffer) :
    ConfInv flag a0 t0 a t buf0 (Conf.start flag a0 t0 buf0) :=
  ⟨by simp [Conf.start], rfl, rfl, rfl, rfl⟩

theorem confInv_step {flag : Bool} {a0 t0 a t : Vec3} {buf0 : Buffer} {c : Conf}
    (hinv : ConfInv flag a0 t0 a t buf0 c) (th : Thread) :
    ConfInv flag a0 t0 a t buf0 (stepThread a t c th) := by
  obtain ⟨f, l, ba, bt, lp, dp, buf⟩ := c
  obtain ⟨h0, h1, h2, h3, h4⟩ := hinv
  cases flag <;> cases th <;> cases lp <;> cases dp <;>
    simp_all [LoopPc.inside, DataPc.inside] <;>
    constructor <;>
    simp_all [stepThread, stepLoop, stepData, LoopPc.inside, DataPc.inside, writtenBefore,
      writePose]

theorem confInv_interleave {flag : Bool} {a0 t0 a t : Vec3} {buf0 : Buffer}
    (schedule : List Thread) :
    ∀ c : Conf, ConfInv flag a0 t0 a t buf0 c →
      ConfInv flag a0 t0 a t buf0 (interleave a t c schedule) := by
  induction schedule with
  | nil => intro c h; exact h
  | cons th rest ih =>
    intro c h
    exact ih (stepThread a t c th) (confInv_step h th)

theorem consumer_alone_is_data (s : Tracker) (a t : Vec3) (buf : Buffer) :
    (interleave a t (Conf.start s.ever_success s.iBestAngles s.iBestTranslation buf)
        (List.replicate 10 Thread.consumer)).buf = (data s buf).2 := by
  cases h : s.ever_success <;>
    simp [interleave, stepThread, stepData, Conf.start, data, h, writePose, List.replicate]

theorem loop_alone_is_publish (flag : Bool) (a0 t0 a t : Vec3) (buf : Buffer) :
    interleave a t (Conf.start flag a0 t0 buf) (List.replicate 5 Thread.loop) =
      { ever_success := true, data_lock := none, iBestAngles := a, iBestTranslation := t,
        loopPc := LoopPc.finished, dataPc := DataPc.load, buf := buf } := by
  simp [interleave, stepThread, stepLoop, Conf.start, List.replicate]

/-! ## Evaluation on the concrete inputs -/

theorem resolve_pointsUpright :
    resolveCorrespondence pointsUpright = some trackedUpright := by
  decide

theorem resolve_pointsDiagonal :
    resolveCorrespondence pointsDiagonal = some trackedDiagonal := by
  decide

theorem selectBest_twoPoses :
    selectBest twoPoses =
      some { minPitch := 2, iBestSolutionIndex := 1, iAngles := [⟨30, 1, 2⟩, ⟨-2, 10, 20⟩] } := by
  simp [selectBest, selectLoop, selectStep, truncToInt, INT_MAX, INT_MIN, twoPoses]

theorem solveUpright_upright (s : Tracker) :
    solveUpright (callOf s trackedUpright) = twoPoses := by
  simp [solveUpright, callOf]

theorem solveUpright_diagonal (s : Tracker) :
    solveUpright (callOf s trackedDiagonal) = [] := by
  simp [solveUpright, callOf, trackedDiagonal, trackedUpright]

theorem reopen_init_camReady :
    maybe_reopen_camera (Tracker.init settings0 camReady info0 zero3 zero3) =
      some (trackerOpened, true) := by
  rfl

theorem cycle_trackerOpened_upright :
    cycle solveUpright trackerOpened ⟨true, pointsUpright⟩ =
      some (trackerTracked, [callOf trackerOpened trackedUpright]) := by
  rw [cycle_detect solveUpright trackerOpened ⟨true, pointsUpright⟩ rfl (by decide)]
  simp only [resolve_pointsUpright, solveUpright_upright, selectBest_twoPoses,
    Option.some_bind]
  rfl

theorem cycle_trackerOpened_noSolution :
    cycle noSolution trackerOpened ⟨true, pointsUpright⟩ =
      some (trackerNoPose, [callOf trackerOpened trackedUpright]) := by
  rw [cycle_detect noSolution trackerOpened ⟨true, pointsUpright⟩ rfl (by decide)]
  simp only [resolve_pointsUpright, noSolution, selectBest_nil, Option.some_bind]
  rfl

theorem reachable_trackerTracked : Reachable solveUpright trackerTracked :=
  Reachable.cycle
    (Reachable.reopen (Reachable.init settings0 camReady info0 zero3 zero3) reopen_init_camReady)
    cycle_trackerOpened_upright

theorem run_upright :
    run solveUpright (Tracker.init settings0 camReady info0 zero3 zero3)
        [⟨true, pointsUpright⟩] =
      some (trackerTracked, [callOf trackerOpened trackedUpright]) := by
  simp [run, reopen_init_camReady, runCycles, cycle_trackerOpened_upright]

theorem run_noSolution :
    run noSolution (Tracker.init settings0 camReady info0 zero3 zero3)
        [⟨true, pointsUpright⟩] =
      some (trackerNoPose, [callOf trackerOpened trackedUpright]) := by
  simp [run, reopen_init_camReady, runCycles, cycle_trackerOpened_noSolution]

/-! ## The selection loop on truncated magnitudes -/

theorem truncToInt_abs {p : ℚ} (h : |p| < (INT_MAX : ℚ)) :
    truncToInt |p| = some ⌊|p|⌋ ∧ 0 ≤ ⌊|p|⌋ ∧ ⌊|p|⌋ < INT_MAX := by
  have h0 : (0 : ℚ) ≤ |p| := abs_nonneg p
  have hf0 : (0 : Int) ≤ ⌊|p|⌋ := Int.floor_nonneg.mpr h0
  have hlt : ⌊|p|⌋ < INT_MAX := Int.floor_lt.mpr h
  refine ⟨?_, hf0, hlt⟩
  unfold truncToInt
  simp only [h0, if_true]
  have hmin : INT_MIN ≤ ⌊|p|⌋ := le_trans (by decide) hf0
  rw [if_pos ⟨hmin, le_of_lt hlt⟩]

theorem selectLoop_lowest (cands : List Candidate) :
    ∀ (i : Int) (st : SelState), (∀ c ∈ cands, |c.angles.v0| < (INT_MAX : ℚ)) →
      ∃ sel, selectLoop cands i st = some sel ∧
        sel.minPitch ≤ st.minPitch ∧
        (∀ (j : Nat) (c : Candidate), cands.get? j = some c → sel.minPitch ≤ ⌊|c.angles.v0|⌋) ∧
        ((sel.minPitch = st.minPitch ∧ sel.iBestSolutionIndex = st.iBestSolutionIndex) ∨
          (sel.minPitch < st.minPitch ∧
            ∃ (k : Nat) (best : Candidate), cands.get? k = some best ∧
              sel.iBestSolutionIndex = i + k ∧ ⌊|best.angles.v0|⌋ = sel.minPitch ∧
              ∀ (j : Nat) (c : Candidate), j < k → cands.get? j = some c →
                sel.minPitch < ⌊|c.angles.v0|⌋)) := by
  induction cands with
  | nil =>
    intro i st _
    exact ⟨st, rfl, le_refl _, by simp, Or.inl ⟨rfl, rfl⟩⟩
  | cons c rest ih =>
    intro i st hfin
    obtain ⟨ht, _, _⟩ := truncToInt_abs (hfin c (List.mem_cons_self c rest))
    have hrest : ∀ c1 ∈ rest, |c1.angles.v0| < (INT_MAX : ℚ) :=
      fun c1 h1 => hfin c1 (List.mem_cons_of_mem c h1)
    by_cases hupd : st.minPitch > ⌊|c.angles.v0|⌋
    · obtain ⟨sel, hsel, hle, hall, hcase⟩ :=
        ih (i + 1) { minPitch := ⌊|c.angles.v0|⌋, iBestSolutionIndex := i,
                     iAngles := st.iAngles ++ [c.angles] } hrest
      refine ⟨sel, ?_, ?_, ?_, ?_⟩
      · simp only [selectLoop, selectStep, ht, Option.map_some', hupd, if_true,
          Option.some_bind]
        exact hsel
      · exact le_trans hle (le_of_lt hupd)
      · intro j c1 hj
        cases j with
        | zero =>
          simp only [List.get?_cons_zero, Option.some.injEq] at hj
          subst hj
          exact hle
        | succ j => exact hall j c1 (by simpa using hj)
      · right
        rcases hcase with ⟨hm, hi⟩ | ⟨hm, k, best, hk, hi, hb, hlow⟩
        · refine ⟨by rw [hm]; exact hupd, 0, c, rfl, by simpa using hi, hm.symm, ?_⟩
          intro j c1 hj
          exact absurd hj (Nat.not_lt_zero j)
        · refine ⟨lt_trans hm hupd, k + 1, best, by simpa using hk, ?_, hb, ?_⟩
          · rw [hi]; push_cast; ring
          · intro j c1 hj hget
            cases j with
            | zero =>
              simp only [List.get?_cons_zero, Option.some.injEq] at hget
              subst hget
              exact hm
            | succ j => exact hlow j c1 (by omega) (by simpa using hget)
    · obtain ⟨sel, hsel, hle, hall, hcase⟩ :=
        ih (i + 1) { st with iAngles := st.iAngles ++ [c.angles] } hrest
      have hge : st.minPitch ≤ ⌊|c.angles.v0|⌋ := not_lt.mp hupd
      refine ⟨sel, ?_, hle, ?_, ?_⟩
      · simp only [selectLoop, selectStep, ht, Option.map_some', hupd, if_false,
          Option.some_bind]
        exact hsel
      · intro j c1 hj
        cases j with
        | zero =>
          simp only [List.get?_cons_zero, Option.some.injEq] at hj
          subst hj
          exact le_trans hle hge
        | succ j => exact hall j c1 (by simpa using hj)
      · rcases hcase with ⟨hm, hi⟩ | ⟨hm, k, best, hk, hi, hb, hlow⟩
        · exact Or.inl ⟨hm, hi⟩
        · right
          refine ⟨hm, k + 1, best, by simpa using hk, ?_, hb, ?_⟩
          · rw [hi]; push_cast; ring
          · intro j c1 hj hget
            cases j with
            | zero =>
              simp only [List.get?_cons_zero, Option.some.injEq] at hget
              subst hget
              exact lt_of_lt_of_le hm hge
            | succ j => exact hlow j c1 (by omega) (by simpa using hget)

/-! ## The role indices of three points -/

theorem vecAt_zero (p0 p1 p2 : Point) (rest : List Point) :
    vecAt (p0 :: p1 :: p2 :: rest) 0 = some p0 := rfl

theorem vecAt_one (p0 p1 p2 : Point) (rest : List Point) :
    vecAt (p0 :: p1 :: p2 :: rest) 1 = some p1 := rfl

theorem vecAt_two (p0 p1 p2 : Point) (rest : List Point) :
    vecAt (p0 :: p1 :: p2 :: rest) 2 = some p2 := rfl

theorem findTop_three (p0 p1 p2 : Point) (rest : List Point)
    (hy : p0.y < INT_MAX ∨ p1.y < INT_MAX ∨ p2.y < INT_MAX) :
    ∃ t : Int, findTopPointIndex (p0 :: p1 :: p2 :: rest) = some t ∧ (t = 0 ∨ t = 1 ∨ t = 2) := by
  simp only [findTopPointIndex, List.foldlM, topStep, vecAt_zero, vecAt_one, vecAt_two,
    Option.map_some', bind, Option.some_bind, pure]
  split_ifs <;> first
    | (simp; done)
    | (simp; omega)

theorem findRight_eval (p0 p1 p2 : Point) (rest : List Point) (t : Int) :
    findRightPointIndex (p0 :: p1 :: p2 :: rest) t =
      ((rightStep (p0 :: p1 :: p2 :: rest) t (0, -1) 0).bind fun s1 =>
        (rightStep (p0 :: p1 :: p2 :: rest) t s1 1).bind fun s2 =>
          rightStep (p0 :: p1 :: p2 :: rest) t s2 2).map Prod.snd := by
  simp only [findRightPointIndex, List.foldlM, bind, pure, Option.bind_some]

theorem rightStep_skip (iPoints : List Point) (t : Int) (st : Int × Int) :
    rightStep iPoints t st t = some st := by
  simp [rightStep]

theorem rightStep_take {iPoints : List Point} {t i : Int} {st : Int × Int} {p : Point}
    (hi : i ≠ t) (hv : vecAt iPoints i = some p) (hx : st.1 < p.x) :
    rightStep iPoints t st i = some (p.x, i) := by
  simp [rightStep, hi, hv, hx]

theorem rightStep_keep {iPoints : List Point} {t i : Int} {st : Int × Int} {p : Point}
    (hi : i ≠ t) (hv : vecAt iPoints i = some p) (hx : ¬ st.1 < p.x) :
    rightStep iPoints t st i = some st := by
  simp [rightStep, hi, hv, hx]

theorem rightPair (iPoints : List Point) (t ia ib : Int) (pa pb : Point)
    (ha : ia ≠ t) (hb : ib ≠ t) (hva : vecAt iPoints ia = some pa)
    (hvb : vecAt iPoints ib = some pb) :
    ∃ s2, ((rightStep iPoints t (0, -1) ia).bind fun s1 => rightStep iPoints t s1 ib) =
        some s2 ∧
      ((0 < pa.x ∨ 0 < pb.x) → (s2.2 = ia ∨ s2.2 = ib)) ∧
      (pa.x ≤ 0 → pb.x ≤ 0 → s2 = (0, -1)) := by
  by_cases h1 : (0 : Int) < pa.x
  · rw [rightStep_take ha hva h1, Option.some_bind]
    by_cases h2 : pa.x < pb.x
    · rw [rightStep_take hb hvb h2]
      exact ⟨_, rfl, fun _ => Or.inr rfl, fun h => absurd h (by omega)⟩
    · rw [rightStep_keep hb hvb h2]
      exact ⟨_, rfl, fun _ => Or.inl rfl, fun h => absurd h (by omega)⟩
  · rw [rightStep_keep ha hva h1, Option.some_bind]
    by_cases h2 : (0 : Int) < pb.x
    · rw [rightStep_take hb hvb h2]
      exact ⟨_, rfl, fun _ => Or.inr rfl, fun _ h => absurd h (by omega)⟩
    · rw [rightStep_keep hb hvb h2]
      exact ⟨_, rfl, fun h => absurd h (by omega), fun _ _ => rfl⟩

theorem findRight_three (p0 p1 p2 : Point) (rest : List Point) (t : Int)
    (ht : t = 0 ∨ t = 1 ∨ t = 2) :
    ∃ r : Int, findRightPointIndex (p0 :: p1 :: p2 :: rest) t = some r ∧
      (((t ≠ 0 ∧ 0 < p0.x) ∨ (t ≠ 1 ∧ 0 < p1.x) ∨ (t ≠ 2 ∧ 0 < p2.x)) →
        (r = 0 ∨ r = 1 ∨ r = 2) ∧ r ≠ t) ∧
      ((t ≠ 0 → p0.x ≤ 0) → (t ≠ 1 → p1.x ≤ 0) → (t ≠ 2 → p2.x ≤ 0) → r = -1) := by
  rcases ht with rfl | rfl | rfl
  · obtain ⟨s2, h, hA, hB⟩ := rightPair (p0 :: p1 :: p2 :: rest) 0 1 2 p1 p2
      (by decide) (by decide) rfl rfl
    refine ⟨s2.2, ?_, ?_, ?_⟩
    · rw [findRight_eval, rightStep_skip, Option.some_bind, h]
      rfl
    · intro hx
      have hpos : 0 < p1.x ∨ 0 < p2.x := by omega
      have := hA hpos
      omega
    · intro _ h1 h2
      rw [hB (h1 (by decide)) (h2 (by decide))]
  · obtain ⟨s2, h, hA, hB⟩ := rightPair (p0 :: p1 :: p2 :: rest) 1 0 2 p0 p2
      (by decide) (by decide) rfl rfl
    refine ⟨s2.2, ?_, ?_, ?_⟩
    · rw [findRight_eval]
      simp only [rightStep_skip, Option.some_bind]
      rw [h]
      rfl
    · intro hx
      have hpos : 0 < p0.x ∨ 0 < p2.x := by omega
      have := hA hpos
      omega
    · intro h0 _ h2
      rw [hB (h0 (by decide)) (h2 (by decide))]
  · obtain ⟨s2, h, hA, hB⟩ := rightPair (p0 :: p1 :: p2 :: rest) 2 0 1 p0 p1
      (by decide) (by decide) rfl rfl
    refine ⟨s2.2, ?_, ?_, ?_⟩
    · rw [findRight_eval]
      simp only [rightStep_skip, Option.bind_some]
      rw [h]
      rfl
    · intro hx
      have hpos : 0 < p0.x ∨ 0 < p1.x := by omega
      have := hA hpos
      omega
    · intro h0 h1 _
      rw [hB (h0 (by decide)) (h1 (by decide))]

theorem findLeft_three (t r : Int) (ht : t = 0 ∨ t = 1 ∨ t = 2) (hr : r = 0 ∨ r = 1 ∨ r = 2)
    (hne : r ≠ t) :
    (findLeftPointIndex t r = 0 ∨ findLeftPointIndex t r = 1 ∨ findLeftPointIndex t r = 2) ∧
      findLeftPointIndex t r ≠ t ∧ findLeftPointIndex t r ≠ r := by
  rcases ht with rfl | rfl | rfl <;> rcases hr with rfl | rfl | rfl <;>
    first
      | exact absurd rfl hne
      | decide

theorem vecAt_three (p0 p1 p2 : Point) (rest : List Point) (i : Int)
    (hi : i = 0 ∨ i = 1 ∨ i = 2) :
    ∃ p, vecAt (p0 :: p1 :: p2 :: rest) i = some p ∧ (p = p0 ∨ p = p1 ∨ p = p2) := by
  rcases hi with rfl | rfl | rfl
  · exact ⟨p0, rfl, Or.inl rfl⟩
  · exact ⟨p1, rfl, Or.inr (Or.inl rfl)⟩
  · exact ⟨p2, rfl, Or.inr (Or.inr rfl)⟩

/-! ## Lemmas on the model points -/

theorem roundHalfEven_near (q : ℚ) (n : Int) (h : |q - n| < 1 / 2) : roundHalfEven q = n := by
  obtain ⟨h1, h2⟩ := abs_lt.mp h
  have hf1 : ((⌊q⌋ : Int) : ℚ) ≤ q := Int.floor_le q
  have hf2 : q < ((⌊q⌋ : Int) : ℚ) + 1 := Int.lt_floor_add_one q
  unfold roundHalfEven
  simp only
  split_ifs with c1 c2 c3
  · have a1 : ((⌊q⌋ : Int) : ℚ) < (n : ℚ) + 1 := by linarith
    have a2 : (n : ℚ) < ((⌊q⌋ : Int) : ℚ) + 1 := by linarith
    have b1 : ⌊q⌋ < n + 1 := by exact_mod_cast a1
    have b2 : n < ⌊q⌋ + 1 := by exact_mod_cast a2
    omega
  · have a1 : ((⌊q⌋ : Int) : ℚ) < (n : ℚ) := by linarith
    have a2 : (n : ℚ) < ((⌊q⌋ : Int) : ℚ) + 2 := by linarith
    have b1 : ⌊q⌋ < n := by exact_mod_cast a1
    have b2 : n < ⌊q⌋ + 2 := by exact_mod_cast a2
    omega
  · have a1 : ((⌊q⌋ : Int) : ℚ) < (n : ℚ) := by linarith
    have a2 : (n : ℚ) < ((⌊q⌋ : Int) : ℚ) + 1 := by linarith
    have b1 : ⌊q⌋ < n := by exact_mod_cast a1
    have b2 : n < ⌊q⌋ + 1 := by exact_mod_cast a2
    omega
  · have a1 : ((⌊q⌋ : Int) : ℚ) < (n : ℚ) := by linarith
    have a2 : (n : ℚ) < ((⌊q⌋ : Int) : ℚ) + 1 := by linarith
    have b1 : ⌊q⌋ < n := by exact_mod_cast a1
    have b2 : n < ⌊q⌋ + 1 := by exact_mod_cast a2
    omega

theorem log_two_eq {r : ℚ} {z : Int} (h1 : (2 : ℚ) ^ z ≤ r) (h2 : r < (2 : ℚ) ^ (z + 1)) :
    Int.log 2 r = z := by
  have hr : 0 < r := lt_of_lt_of_le (zpow_pos (by norm_num) z) h1
  have a : z ≤ Int.log 2 r :=
    (Int.zpow_le_iff_le_log (by norm_num) hr).mp (by exact_mod_cast h1)
  have b : Int.log 2 r < z + 1 :=
    (Int.lt_zpow_iff_log_lt (by norm_num) hr).mp (by exact_mod_cast h2)
  omega

theorem roundToBinary_eval (p : Nat) (emin : Int) (q : ℚ) (e n : Int)
    (h1 : (2 : ℚ) ^ e ≤ |q|) (h2 : |q| < (2 : ℚ) ^ (e + 1)) (hemin : emin ≤ e)
    (hn : |q / (2 : ℚ) ^ (e - ((p : Int) - 1)) - n| < 1 / 2) :
    roundToBinary p emin q = (n : ℚ) * (2 : ℚ) ^ (e - ((p : Int) - 1)) := by
  have hq : q ≠ 0 := by
    intro h0
    rw [h0, abs_zero] at h1
    exact absurd h1 (not_le.mpr (zpow_pos (by norm_num) e))
  unfold roundToBinary
  simp only [hq, if_false, log_two_eq h1 h2, max_eq_left hemin]
  rw [roundHalfEven_near _ n hn]

theorem modelCoord_three : modelCoord 3 = 5033165 / 16777216 := by
  have hd : roundToDouble (((3 : Int) : ℚ) / 10) = 5404319552844595 / 18014398509481984 := by
    unfold roundToDouble
    rw [roundToBinary_eval 53 (-1022) _ (-2) 5404319552844595 (by norm_num [le_abs])
      (by norm_num [abs_lt]) (by norm_num) (by norm_num [abs_lt])]
    norm_num
  unfold modelCoord narrowToFloat
  rw [hd, roundToBinary_eval 24 (-126) _ (-2) 10066330 (by norm_num [le_abs])
    (by norm_num [abs_lt]) (by norm_num) (by norm_num [abs_lt])]
  norm_num

theorem modelCoord_neg_three : modelCoord (-3) = -5033165 / 16777216 := by
  have hd : roundToDouble ((((-3) : Int) : ℚ) / 10) = -5404319552844595 / 18014398509481984 := by
    unfold roundToDouble
    rw [roundToBinary_eval 53 (-1022) _ (-2) (-5404319552844595) (by norm_num [le_abs])
      (by norm_num [abs_lt]) (by norm_num) (by norm_num [abs_lt])]
    norm_num
  unfold modelCoord narrowToFloat
  rw [hd, roundToBinary_eval 24 (-126) _ (-2) (-10066330) (by norm_num [le_abs])
    (by norm_num [abs_lt]) (by norm_num) (by norm_num [abs_lt])]
  norm_num

theorem modelCoord_nine : modelCoord 9 = 7549747 / 8388608 := by
  have hd : roundToDouble (((9 : Int) : ℚ) / 10) = 8106479329266893 / 9007199254740992 := by
    unfold roundToDouble
    rw [roundToBinary_eval 53 (-1022) _ (-1) 8106479329266893 (by norm_num [le_abs])
      (by norm_num [abs_lt]) (by norm_num) (by norm_num [abs_lt])]
    norm_num
  unfold modelCoord narrowToFloat
  rw [hd, roundToBinary_eval 24 (-126) _ (-1) 15099494 (by norm_num [le_abs])
    (by norm_num [abs_lt]) (by norm_num) (by norm_num [abs_lt])]
  norm_num

theorem modelCoord_neg_seven : modelCoord (-7) = -11744051 / 16777216 := by
  have hd : roundToDouble ((((-7) : Int) : ℚ) / 10) = -3152519739159347 / 4503599627370496 := by
    unfold roundToDouble
    rw [roundToBinary_eval 53 (-1022) _ (-1) (-6305039478318694) (by norm_num [le_abs])
      (by norm_num [abs_lt]) (by norm_num) (by norm_num [abs_lt])]
    norm_num
  unfold modelCoord narrowToFloat
  rw [hd, roundToBinary_eval 24 (-126) _ (-1) (-11744051) (by norm_num [le_abs])
    (by norm_num [abs_lt]) (by norm_num) (by norm_num [abs_lt])]
  norm_num

theorem modelCoord_sixty : modelCoord 60 = 6 := by
  have hd : roundToDouble (((60 : Int) : ℚ) / 10) = 6 := by
    unfold roundToDouble
    rw [roundToBinary_eval 53 (-1022) _ 2 6755399441055744 (by norm_num [le_abs])
      (by norm_num [abs_lt]) (by norm_num) (by norm_num [abs_lt])]
    norm_num
  unfold modelCoord narrowToFloat
  rw [hd, roundToBinary_eval 24 (-126) _ 2 12582912 (by norm_num [le_abs])
    (by norm_num [abs_lt]) (by norm_num) (by norm_num [abs_lt])]
  norm_num

theorem modelCoord_hundred : modelCoord 100 = 10 := by
  have hd : roundToDouble (((100 : Int) : ℚ) / 10) = 10 := by
    unfold roundToDouble
    rw [roundToBinary_eval 53 (-1022) _ 3 5629499534213120 (by norm_num [le_abs])
      (by norm_num [abs_lt]) (by norm_num) (by norm_num [abs_lt])]
    norm_num
  unfold modelCoord narrowToFloat
  rw [hd, roundToBinary_eval 24 (-126) _ 3 10485760 (by norm_num [le_abs])
    (by norm_num [abs_lt]) (by norm_num) (by norm_num [abs_lt])]
  norm_num

theorem modelCoord_neg_eighty : modelCoord (-80) = -8 := by
  have hd : roundToDouble ((((-80) : Int) : ℚ) / 10) = -8 := by
    unfold roundToDouble
    rw [roundToBinary_eval 53 (-1022) _ 3 (-4503599627370496) (by norm_num [le_abs])
      (by norm_num [abs_lt]) (by norm_num) (by norm_num [abs_lt])]
    norm_num
  unfold modelCoord narrowToFloat
  rw [hd, roundToBinary_eval 24 (-126) _ 3 (-8388608) (by norm_num [le_abs])
    (by norm_num [abs_lt]) (by norm_num) (by norm_num [abs_lt])]
  norm_num

theorem modelCoord_neg_sixty : modelCoord (-60) = -6 := by
  have hd : roundToDouble ((((-60) : Int) : ℚ) / 10) = -6 := by
    unfold roundToDouble
    rw [roundToBinary_eval 53 (-1022) _ 2 (-6755399441055744) (by norm_num [le_abs])
      (by norm_num [abs_lt]) (by norm_num) (by norm_num [abs_lt])]
    norm_num
  unfold modelCoord narrowToFloat
  rw [hd, roundToBinary_eval 24 (-126) _ 2 (-12582912) (by norm_num [le_abs])
    (by norm_num [abs_lt]) (by norm_num) (by norm_num [abs_lt])]
  norm_num

theorem negInt_small (v : Int) (h1 : INT_MIN < v) (h2 : v ≤ INT_MAX) : negInt v = -v := by
  unfold INT_MIN at h1
  unfold INT_MAX at h2
  unfold negInt wrapInt
  omega

theorem negInt_min : negInt INT_MIN = INT_MIN := by
  decide

theorem modelOfSettings_settings0 :
    modelOfSettings settings0 = [⟨6, 10, -8⟩, ⟨-6, 10, -8⟩, ⟨0, 0, 0⟩] := by
  have h80 : negInt 80 = -80 := by decide
  have h60 : negInt 60 = -60 := by decide
  simp only [modelOfSettings, settings0, h80, h60, modelCoord_sixty, modelCoord_hundred,
    modelCoord_neg_eighty, modelCoord_neg_sixty]

theorem modelOfSettings_rounds :
    modelOfSettings
        { cap_x := 3, cap_y := 7, cap_z := 9, cam_fps := 30, cam_res_x := 640,
          cam_res_y := 480 } =
      [ ⟨5033165 / 16777216, 7549747 / 8388608, -11744051 / 16777216⟩,
        ⟨-5033165 / 16777216, 7549747 / 8388608, -11744051 / 16777216⟩,
        ⟨0, 0, 0⟩ ] := by
  have h7 : negInt 7 = -7 := by decide
  have h3 : negInt 3 = -3 := by decide
  simp only [modelOfSettings, h7, h3, modelCoord_three, modelCoord_nine,
    modelCoord_neg_seven, modelCoord_neg_three]

theorem reachableFrom_model {solveP3P : Solver} {st0 : Settings} {s : Tracker}
    (h : ReachableFrom solveP3P st0 s) : s.iModel = modelOfSettings st0 := by
  induction h with
  | init cam info a0 t0 => rfl
  | cycle _ hc ih => rw [(cycle_view hc).2.2.2.2.2]; exact ih
  | reopen _ hr ih => rw [(reopen_keeps hr).2.1]; exact ih
  | settings st _ ih => exact ih
  | data buf _ ih =>
    have hd : ∀ (s : Tracker), (data s buf).1 = s := by
      intro s; unfold data; split <;> rfl
    rw [hd]; exact ih
  | center _ ih => exact ih

/-! ## The claims -/

/-- C1: with two of three points in image column 0 (neither of them the top
point), the right-most search never passes its starting bound `maxX = 0`, so
`rightPointIndex` stays `-1`, `leftPointIndex` becomes `0`, and building the
correspondence reads `iPoints[-1]`: no permutation of the three points is
produced. -/
theorem resolveCorrespondence_left_edge :
    roleIndices pointsLeftEdge = some (2, -1, 0) ∧
      resolveCorrespondence pointsLeftEdge = none := by
  decide

/-- C2: for two candidates with pitch 0.9 and 0.1 the selection loop ends with
`iBestSolutionIndex = 0`, although the candidate at index 1 has the strictly
smaller `|pitch|`: both magnitudes truncate to the integer 0. -/
theorem selectBest_truncates_pitch :
    (selectBest [candidateWithPitch (9 / 10), candidateWithPitch (1 / 10)]).map
        SelState.iBestSolutionIndex = some 0 ∧
      |(candidateWithPitch (1 / 10)).angles.v0| < |(candidateWithPitch (9 / 10)).angles.v0| := by
  constructor
  · simp [selectBest, selectLoop, selectStep, truncToInt, INT_MAX, INT_MIN, candidateWithPitch]
    norm_num [abs_of_nonneg, Int.floor_eq_iff]
  · norm_num [candidateWithPitch, abs_of_nonneg]

/-- C3 (counterexample): after a first cycle with three detected points for
which the solver returns no candidate, no candidate has ever been selected,
yet `data` overwrites the buffer: the pitch channel held 7 and now holds the
construction-time value 0 of `iBestAngles`. -/
theorem data_writes_unselected_pose :
    run noSolution (Tracker.init settings0 camReady info0 zero3 zero3)
        [⟨true, pointsUpright⟩] =
      some (trackerNoPose, [callOf trackerOpened trackedUpright]) ∧
    lastSelected noSolution [callOf trackerOpened trackedUpright] = none ∧
    sevens Pitch = 7 ∧ (data trackerNoPose sevens).2 Pitch = 0 := by
  refine ⟨run_noSolution, ?_, rfl, ?_⟩
  · simp [lastSelected, selectedOf, noSolution, selectBest_nil, vecAt_neg_one]
  · simp [data, trackerNoPose, trackerOpened, writePose, zero3, Pitch, Roll, TX, TY, TZ,
      Function.update]

/-- C3 (amended): after `run` has executed any sequence of cycles from the
constructed state, `data` leaves the buffer untouched exactly when no cycle so
far had a new frame with at least three detected points; otherwise it writes
the six values of the candidate selected in the most recent solver call that
led to a selection, or, when no call has led to one yet, the values
`iBestAngles` and `iBestTranslation` held at construction. -/
theorem data_after_run (solveP3P : Solver) (st : Settings) (cam : Camera) (info : CameraInfo)
    (a0 t0 : Vec3) (inputs : List CycleInput) (s : Tracker) (calls : List SolverCall)
    (buf : Buffer)
    (h : run solveP3P (Tracker.init st cam info a0 t0) inputs = some (s, calls)) :
    (data s buf).2 =
      if inputs.any detects then
        writePose (poseOr (lastSelected solveP3P calls) (a0, t0)).1
          (poseOr (lastSelected solveP3P calls) (a0, t0)).2 buf
      else buf := by
  unfold run at h
  cases hr : maybe_reopen_camera (Tracker.init st cam info a0 t0) with
  | none => simp [hr] at h
  | some r =>
    obtain ⟨s0, res⟩ := r
    simp only [hr, Option.some_bind] at h
    obtain ⟨hcam, _, hflag, _, _, _, hang, htr⟩ := reopen_keeps hr
    obtain ⟨_, _, _, _, _, hf, hpose⟩ :=
      runCycles_spec solveP3P inputs s0 s calls h (reopen_inv hr (init_inv st cam info a0 t0))
    have hflag0 : s0.ever_success = false := by rw [hflag]; rfl
    have hang0 : s0.iBestAngles = a0 := by rw [hang]; rfl
    have htr0 : s0.iBestTranslation = t0 := by rw [htr]; rfl
    rw [hflag0, hcam] at hf
    rw [hang0, htr0] at hpose
    simp only [Bool.false_or, Bool.true_and] at hf
    unfold data
    rw [hf, ← hpose]
    cases List.any inputs detects <;> simp

/-- C3 (witness): one cycle on `pointsUpright` with the solver `solveUpright`,
then `data` on a buffer of sevens. -/
theorem data_after_run_witness :
    run solveUpright (Tracker.init settings0 camReady info0 zero3 zero3)
        [⟨true, pointsUpright⟩] =
      some (trackerTracked, [callOf trackerOpened trackedUpright]) ∧
    (data trackerTracked sevens).2 =
      if [(⟨true, pointsUpright⟩ : CycleInput)].any detects then
        writePose
          (poseOr (lastSelected solveUpright [callOf trackerOpened trackedUpright])
            (zero3, zero3)).1
          (poseOr (lastSelected solveUpright [callOf trackerOpened trackedUpright])
            (zero3, zero3)).2 sevens
      else sevens :=
  ⟨run_upright,
    data_after_run solveUpright settings0 camReady info0 zero3 zero3 [⟨true, pointsUpright⟩]
      trackerTracked [callOf trackerOpened trackedUpright] sevens run_upright⟩

/-- C4: from any reachable state, a cycle with a new frame in which fewer than
three points are detected completes, makes no solver call, and leaves
`iBestAngles`, `iBestTranslation` and `ever_success` as they were; the publish
step does run, and re-reads the solution the left-over index points to. -/
theorem shortfall_cycle_keeps_pose (solveP3P : Solver) (s : Tracker) (inp : CycleInput)
    (hr : Reachable solveP3P s) (hn : inp.new_frame = true)
    (hk : inp.extracted.length < KPointCount) :
    ∃ s1, cycle solveP3P s inp = some (s1, []) ∧
      publish { s with iPoints := inp.extracted } = some s1 ∧
      s1.iBestAngles = s.iBestAngles ∧ s1.iBestTranslation = s.iBestTranslation ∧
      s1.ever_success = s.ever_success := by
  obtain ⟨hinv, hcam, _⟩ := reachable_inv hr
  have hf : (s.camera.isSome && inp.new_frame) = true := by rw [hcam, hn]; rfl
  have hinv1 : PoseInv { s with iPoints := inp.extracted } := hinv
  refine ⟨{ s with iPoints := inp.extracted }, ?_, publish_of_inv hinv1, rfl, rfl, rfl⟩
  rw [cycle_shortfall solveP3P s inp hf hk, publish_of_inv hinv1]
  rfl

/-- C4 (witness): a cycle with two detected points from `trackerTracked`,
whose left-over solution index is 1. -/
theorem shortfall_cycle_keeps_pose_witness :
    trackerTracked.iBestSolutionIndex = 1 ∧
    ∃ s1, cycle solveUpright trackerTracked ⟨true, [⟨1, 1⟩, ⟨2, 2⟩]⟩ = some (s1, []) ∧
      publish { trackerTracked with iPoints := [⟨1, 1⟩, ⟨2, 2⟩] } = some s1 ∧
      s1.iBestAngles = trackerTracked.iBestAngles ∧
      s1.iBestTranslation = trackerTracked.iBestTranslation ∧
      s1.ever_success = trackerTracked.ever_success :=
  ⟨rfl, shortfall_cycle_keeps_pose solveUpright trackerTracked ⟨true, [⟨1, 1⟩, ⟨2, 2⟩]⟩
    reachable_trackerTracked rfl (by decide)⟩

/-- C5: from any reachable state, a cycle with a new frame and at least three
detected points whose correspondence the solver answers with zero candidates
completes with `iBestSolutionIndex = -1` and leaves `iBestAngles` and
`iBestTranslation` as they were. -/
theorem no_candidate_cycle_keeps_pose (solveP3P : Solver) (s : Tracker) (inp : CycleInput)
    (tracked : List Point) (hr : Reachable solveP3P s) (hn : inp.new_frame = true)
    (hk : KPointCount ≤ inp.extracted.length)
    (hres : resolveCorrespondence inp.extracted = some tracked)
    (hzero : solveP3P (callOf s tracked) = []) :
    ∃ s1, cycle solveP3P s inp = some (s1, [callOf s tracked]) ∧
      s1.iBestSolutionIndex = -1 ∧
      s1.iBestAngles = s.iBestAngles ∧ s1.iBestTranslation = s.iBestTranslation := by
  obtain ⟨_, hcam, _⟩ := reachable_inv hr
  have hf : (s.camera.isSome && inp.new_frame) = true := by rw [hcam, hn]; rfl
  rw [cycle_detect solveP3P s inp hf hk, hres, Option.some_bind, hzero, selectBest_nil,
    Option.some_bind]
  exact ⟨_, rfl, rfl, rfl, rfl⟩

/-- C5 (witness): from `trackerTracked`, which holds a published pose, a cycle
on the collinear `pointsDiagonal`, for which `solveUpright` finds nothing. -/
theorem no_candidate_cycle_keeps_pose_witness :
    trackerTracked.iBestSolutionIndex = 1 ∧
    ∃ s1, cycle solveUpright trackerTracked ⟨true, pointsDiagonal⟩ =
        some (s1, [callOf trackerTracked trackedDiagonal]) ∧
      s1.iBestSolutionIndex = -1 ∧
      s1.iBestAngles = trackerTracked.iBestAngles ∧
      s1.iBestTranslation = trackerTracked.iBestTranslation :=
  ⟨rfl, no_candidate_cycle_keeps_pose solveUpright trackerTracked ⟨true, pointsDiagonal⟩
    trackedDiagonal reachable_trackerTracked rfl (by decide) resolve_pointsDiagonal
    (solveUpright_diagonal trackerTracked)⟩

/-- C6: while `ever_success` is false, `data` returns with the buffer and the
tracker exactly as they were, and so does any number of repeated calls. -/
theorem data_before_success (s : Tracker) (buf : Buffer) (h : s.ever_success = false) :
    data s buf = (s, buf) ∧
      ∀ n : Nat, (fun p : Tracker × Buffer => data p.1 p.2)^[n] (s, buf) = (s, buf) := by
  have h1 : data s buf = (s, buf) := by simp [data, h]
  refine ⟨h1, fun n => ?_⟩
  induction n with
  | zero => rfl
  | succ n ih => rw [Function.iterate_succ_apply', ih]; exact h1

/-- C6 (witness): `data` on the freshly opened tracker and a buffer of
sevens. -/
theorem data_before_success_witness :
    trackerOpened.ever_success = false ∧
    data trackerOpened sevens = (trackerOpened, sevens) ∧
      ∀ n : Nat, (fun p : Tracker × Buffer => data p.1 p.2)^[n] (trackerOpened, sevens) =
        (trackerOpened, sevens) :=
  ⟨rfl, data_before_success trackerOpened sevens rfl⟩

/-- C7: the Success Flag is a one-way latch. After a cycle it is true exactly
when it was true before or the cycle received a new frame (camera present and
`new_frame` reported) with at least three detected points; in particular a
true flag stays true. The operations `data`, `center` and
`maybe_reopen_camera` leave the flag as it is. -/
theorem ever_success_latch (solveP3P : Solver) (s s1 : Tracker) (inp : CycleInput)
    (calls : List SolverCall) (h : cycle solveP3P s inp = some (s1, calls)) :
    s1.ever_success =
        (s.ever_success ||
          (s.camera.isSome && (inp.new_frame && decide (KPointCount ≤ inp.extracted.length)))) ∧
      (s.ever_success = true → s1.ever_success = true) ∧
      (∀ buf : Buffer, (data s buf).1.ever_success = s.ever_success) ∧
      (center s).1.ever_success = s.ever_success ∧
      (∀ (s2 : Tracker) (r : Bool), maybe_reopen_camera s = some (s2, r) →
        s2.ever_success = s.ever_success) := by
  have hflag := cycle_flag h
  unfold detects at hflag
  refine ⟨hflag, ?_, ?_, rfl, ?_⟩
  · intro ht
    rw [hflag, ht]
    rfl
  · intro buf
    unfold data
    split <;> rfl
  · intro s2 r hr
    exact (reopen_keeps hr).2.2.1

/-- C7 (witness): the cycle on `pointsUpright` that takes `trackerOpened` to
`trackerTracked` sets the flag. -/
theorem ever_success_latch_witness :
    trackerOpened.ever_success = false ∧
    (trackerTracked.ever_success =
        (trackerOpened.ever_success ||
          (trackerOpened.camera.isSome &&
            ((⟨true, pointsUpright⟩ : CycleInput).new_frame &&
              decide (KPointCount ≤ (⟨true, pointsUpright⟩ : CycleInput).extracted.length)))) ∧
      (trackerOpened.ever_success = true → trackerTracked.ever_success = true) ∧
      (∀ buf : Buffer, (data trackerOpened buf).1.ever_success = trackerOpened.ever_success) ∧
      (center trackerOpened).1.ever_success = trackerOpened.ever_success ∧
      (∀ (s2 : Tracker) (r : Bool), maybe_reopen_camera trackerOpened = some (s2, r) →
        s2.ever_success = trackerOpened.ever_success)) :=
  ⟨rfl, ever_success_latch solveUpright trackerOpened trackerTracked ⟨true, pointsUpright⟩
    [callOf trackerOpened trackedUpright] cycle_trackerOpened_upright⟩

/-- C8 (counterexample): the camera fails to start three times and would
start the fourth time. `run` makes its one attempt before the loop; after
four cycles the camera is still closed and the three remaining start
outcomes, the successful one included, are still pending. -/
theorem run_never_retries_open :
    (run solveUpright (Tracker.init settings0 camLate info0 zero3 zero3)
        (List.replicate 4 ⟨false, []⟩)).map (fun r => r.1.camera) =
      some (some { isOpen := false,
                   pending := [(false, info0), (false, info0), (true, infoDev)] }) := by
  decide

/-- C8 (amended): `run` attempts to open the camera once, in the
`maybe_reopen_camera` call before the loop, which also rebuilds the
intrinsics; no cycle attempts an open. After any number of cycles the camera
(open flag and pending start outcomes), the camera info and both intrinsics
matrices are exactly those left by that one call. A failed open does not end
the loop: cycles without a new frame complete, changing nothing, for as long
as they are requested. -/
theorem run_opens_camera_once (solveP3P : Solver) (s : Tracker) :
    (∀ (inputs : List CycleInput) (s1 : Tracker) (calls : List SolverCall),
      run solveP3P s inputs = some (s1, calls) →
        ∃ s0 r, maybe_reopen_camera s = some (s0, r) ∧
          s1.camera = s0.camera ∧ s1.iCameraInfo = s0.iCameraInfo ∧
          s1.iCameraMatrix = s0.iCameraMatrix ∧
          s1.iDistCoeffsMatrix = s0.iDistCoeffsMatrix) ∧
    (∀ n : Nat, run solveP3P s (List.replicate n ⟨false, []⟩) =
      (maybe_reopen_camera s).map fun r => (r.1, [])) := by
  constructor
  · intro inputs s1 calls h
    unfold run at h
    cases hr : maybe_reopen_camera s with
    | none => simp [hr] at h
    | some r =>
      obtain ⟨s0, res⟩ := r
      simp only [hr, Option.some_bind] at h
      refine ⟨s0, res, rfl, ?_⟩
      clear hr
      induction inputs generalizing s0 calls with
      | nil =>
        simp only [runCycles, Option.some.injEq, Prod.mk.injEq] at h
        obtain ⟨rfl, _⟩ := h
        exact ⟨rfl, rfl, rfl, rfl⟩
      | cons inp rest ih =>
        simp only [runCycles] at h
        cases hc : cycle solveP3P s0 inp with
        | none => simp [hc] at h
        | some r1 =>
          obtain ⟨sa, ca⟩ := r1
          simp only [hc, Option.some_bind] at h
          cases hrest : runCycles solveP3P sa rest with
          | none => simp [hrest] at h
          | some r2 =>
            obtain ⟨sb, cb⟩ := r2
            simp only [hrest, Option.map_some', Option.some.injEq, Prod.mk.injEq] at h
            obtain ⟨rfl, _⟩ := h
            obtain ⟨_, v2, v3, v4, v5, _⟩ := cycle_view hc
            obtain ⟨i1, i2, i3, i4⟩ := ih cb sa hrest
            exact ⟨i1.trans v2, i2.trans v3, i3.trans v4, i4.trans v5⟩
  · intro n
    unfold run
    cases maybe_reopen_camera s with
    | none => rfl
    | some r =>
      simp only [Option.some_bind, Option.map_some']
      induction n with
      | zero => rfl
      | succ n ih =>
        have hf : cycle solveP3P r.1 ⟨false, []⟩ = some (r.1, []) :=
          cycle_no_frame solveP3P r.1 ⟨false, []⟩ (by simp)
        simp only [List.replicate_succ, runCycles, hf, Option.some_bind, ih]
        rfl

/-- C8 (witness): the run of four frameless cycles with the camera
`camLate`. -/
theorem run_opens_camera_once_witness :
    (∀ (inputs : List CycleInput) (s1 : Tracker) (calls : List SolverCall),
      run solveUpright (Tracker.init settings0 camLate info0 zero3 zero3) inputs =
          some (s1, calls) →
        ∃ s0 r, maybe_reopen_camera (Tracker.init settings0 camLate info0 zero3 zero3) =
            some (s0, r) ∧
          s1.camera = s0.camera ∧ s1.iCameraInfo = s0.iCameraInfo ∧
          s1.iCameraMatrix = s0.iCameraMatrix ∧
          s1.iDistCoeffsMatrix = s0.iDistCoeffsMatrix) ∧
    run solveUpright (Tracker.init settings0 camLate info0 zero3 zero3)
        (List.replicate 4 ⟨false, []⟩) =
      (maybe_reopen_camera (Tracker.init settings0 camLate info0 zero3 zero3)).map
        fun r => (r.1, []) :=
  ⟨(run_opens_camera_once solveUpright
      (Tracker.init settings0 camLate info0 zero3 zero3)).1,
    (run_opens_camera_once solveUpright
      (Tracker.init settings0 camLate info0 zero3 zero3)).2 4⟩

/-- C9: whenever a cycle calls the solver, in any state reachable from the
tracker constructed with settings `st0`, it does so once, with a
correspondence of exactly three entries built from the points extracted in
that cycle, and with the model the tracker holds. That model is the list
`CreateModelFromSettings` built at construction: exactly three points, first
the right one `(cap_x/10, cap_z/10, -cap_y/10)`, then the left one
`(-cap_x/10, cap_z/10, -cap_y/10)`, then the top one `(0, 0, 0)`, each
coordinate computed in `double` and narrowed to `float`. -/
theorem solver_called_with_three (solveP3P : Solver) (st0 : Settings) (s s1 : Tracker)
    (inp : CycleInput) (calls : List SolverCall) (hr : ReachableFrom solveP3P st0 s)
    (h : cycle solveP3P s inp = some (s1, calls)) :
    calls.length ≤ 1 ∧
    ∀ c ∈ calls,
      c.tracked.length = 3 ∧ resolveCorrespondence inp.extracted = some c.tracked ∧
      s1.iTrackedPoints = c.tracked ∧
      c.model = s.iModel ∧ c.model.length = 3 ∧
      c.model =
        [ ⟨modelCoord st0.cap_x, modelCoord st0.cap_z, modelCoord (negInt st0.cap_y)⟩,
          ⟨modelCoord (negInt st0.cap_x), modelCoord st0.cap_z,
            modelCoord (negInt st0.cap_y)⟩,
          ⟨0, 0, 0⟩ ] := by
  have hmodel := reachableFrom_model hr
  rcases cycle_cases h with ⟨_, _, rfl⟩ | ⟨_, _, rfl, _⟩ | ⟨_, _, tracked, sel, hres, _, rfl, hp⟩
  · simp
  · simp
  · refine ⟨by simp, ?_⟩
    intro c hc
    simp only [List.mem_singleton] at hc
    subst hc
    have htr : s1.iTrackedPoints = tracked := by
      rcases publish_cases hp with ⟨_, rfl⟩ | ⟨_, a, t, _, _, rfl⟩ <;> rfl
    have hm : (callOf s tracked).model = modelOfSettings st0 := hmodel
    refine ⟨resolve_length hres, hres, htr, rfl, ?_, ?_⟩
    · rw [hm]
      rfl
    · rw [hm]
      rfl

/-- C9 (witness): the cycle on `pointsUpright` from `trackerOpened`, whose
model was built from `settings0` (60, 80, 100 mm); and the model for cap
dimensions 3, 7, 9 mm, whose coordinates are not representable and get
rounded. -/
theorem solver_called_with_three_witness :
    modelOfSettings
        { cap_x := 3, cap_y := 7, cap_z := 9, cam_fps := 30, cam_res_x := 640,
          cam_res_y := 480 } =
      [ ⟨5033165 / 16777216, 7549747 / 8388608, -11744051 / 16777216⟩,
        ⟨-5033165 / 16777216, 7549747 / 8388608, -11744051 / 16777216⟩,
        ⟨0, 0, 0⟩ ] ∧
    (callOf trackerOpened trackedUpright).model = [⟨6, 10, -8⟩, ⟨-6, 10, -8⟩, ⟨0, 0, 0⟩] ∧
    [callOf trackerOpened trackedUpright].length ≤ 1 ∧
    ∀ c ∈ [callOf trackerOpened trackedUpright],
      c.tracked.length = 3 ∧ resolveCorrespondence pointsUpright = some c.tracked ∧
      trackerTracked.iTrackedPoints = c.tracked ∧
      c.model = trackerOpened.iModel ∧ c.model.length = 3 ∧
      c.model =
        [ ⟨modelCoord settings0.cap_x, modelCoord settings0.cap_z,
            modelCoord (negInt settings0.cap_y)⟩,
          ⟨modelCoord (negInt settings0.cap_x), modelCoord settings0.cap_z,
            modelCoord (negInt settings0.cap_y)⟩,
          ⟨0, 0, 0⟩ ] :=
  ⟨modelOfSettings_rounds, modelOfSettings_settings0,
    solver_called_with_three solveUpright settings0 trackerOpened trackerTracked
      ⟨true, pointsUpright⟩ [callOf trackerOpened trackedUpright]
      (ReachableFrom.reopen (ReachableFrom.init camReady info0 zero3 zero3)
        reopen_init_camReady)
      cycle_trackerOpened_upright⟩

/-- C10: under every interleaving of the atomic steps of a publishing cycle
with those of a concurrent `data` call (sequentially consistent memory,
`data_lock` granting mutual exclusion), once `data` has returned the buffer is
untouched (only when the flag was clear at the start), or carries all six
values of the pose published before the cycle, or all six values of the pose
the cycle publishes; it never mixes the two. -/
theorem data_reads_whole_pose (flag : Bool) (a0 t0 a t : Vec3) (buf0 : Buffer)
    (schedule : List Thread)
    (hret : (interleave a t (Conf.start flag a0 t0 buf0) schedule).dataPc = DataPc.finished) :
    (flag = false ∧ (interleave a t (Conf.start flag a0 t0 buf0) schedule).buf = buf0) ∨
    (interleave a t (Conf.start flag a0 t0 buf0) schedule).buf = writePose a0 t0 buf0 ∨
    (interleave a t (Conf.start flag a0 t0 buf0) schedule).buf = writePose a t buf0 := by
  have hinv := (confInv_interleave schedule _ (confInv_start flag a0 t0 a t buf0)).buffer
  rw [hret] at hinv
  exact hinv

/-- C10 (witness): `data` loads a set flag, the loop thread takes the lock and
publishes while `data` waits, then `data` reads. -/
theorem data_reads_whole_pose_witness :
    (interleave ⟨-2, 10, 20⟩ ⟨6, 7, 8⟩ (Conf.start true zero3 zero3 sevens)
        scheduleContended).dataPc = DataPc.finished ∧
    ((true = false ∧
        (interleave ⟨-2, 10, 20⟩ ⟨6, 7, 8⟩ (Conf.start true zero3 zero3 sevens)
          scheduleContended).buf = sevens) ∨
      (interleave ⟨-2, 10, 20⟩ ⟨6, 7, 8⟩ (Conf.start true zero3 zero3 sevens)
        scheduleContended).buf = writePose zero3 zero3 sevens ∨
      (interleave ⟨-2, 10, 20⟩ ⟨6, 7, 8⟩ (Conf.start true zero3 zero3 sevens)
        scheduleContended).buf = writePose ⟨-2, 10, 20⟩ ⟨6, 7, 8⟩ sevens) :=
  ⟨rfl, data_reads_whole_pose true zero3 zero3 ⟨-2, 10, 20⟩ ⟨6, 7, 8⟩ sevens
    scheduleContended rfl⟩

/-- C11: for a non-empty candidate list whose pitch magnitudes are all below
`INT_MAX`, the selection loop completes with `0 <= iBestSolutionIndex < n`;
the chosen candidate attains the least value of `int absolutePitch`, the
magnitude truncated toward zero, and every candidate at a lower index has a
strictly larger truncated magnitude. So when two candidates fall into the same
integer bucket, the later one is never chosen, whatever their exact
magnitudes. -/
theorem selectBest_lowest_truncated (cands : List Candidate) (hne : cands ≠ [])
    (hfin : ∀ c ∈ cands, |c.angles.v0| < (INT_MAX : ℚ)) :
    ∃ (sel : SelState) (k : Nat) (best : Candidate),
      selectBest cands = some sel ∧
      0 ≤ sel.iBestSolutionIndex ∧ sel.iBestSolutionIndex < cands.length ∧
      sel.iBestSolutionIndex = k ∧ cands.get? k = some best ∧
      truncToInt |best.angles.v0| = some sel.minPitch ∧
      (∀ (j : Nat) (c : Candidate), cands.get? j = some c →
        ∃ m : Int, truncToInt |c.angles.v0| = some m ∧ sel.minPitch ≤ m ∧
          (j < k → sel.minPitch < m)) ∧
      (∀ (j1 j2 : Nat) (c1 c2 : Candidate), j1 < j2 → cands.get? j1 = some c1 →
        cands.get? j2 = some c2 → truncToInt |c1.angles.v0| = truncToInt |c2.angles.v0| →
        sel.iBestSolutionIndex ≠ j2) := by
  obtain ⟨sel, hsel, _, hall, hcase⟩ :=
    selectLoop_lowest cands 0 { minPitch := INT_MAX, iBestSolutionIndex := -1, iAngles := [] }
      hfin
  obtain ⟨c0, rest, rfl⟩ := List.exists_cons_of_ne_nil hne
  have h0 := hall 0 c0 rfl
  obtain ⟨_, _, hlt0⟩ := truncToInt_abs (hfin c0 (List.mem_cons_self c0 rest))
  have hmem : ∀ (j : Nat) (c : Candidate), (c0 :: rest).get? j = some c →
      |c.angles.v0| < (INT_MAX : ℚ) :=
    fun j c hj => hfin c (List.get?_mem hj)
  rcases hcase with ⟨hm, _⟩ | ⟨_, k, best, hk, hi, hb, hlow⟩
  · have hm1 : sel.minPitch = INT_MAX := hm
    omega
  · have hklt : k < (c0 :: rest).length := by
      rcases Nat.lt_or_ge k (c0 :: rest).length with h | h
      · exact h
      · rw [List.get?_eq_none.mpr h] at hk
        exact absurd hk (by simp)
    have hidx : sel.iBestSolutionIndex = (k : Int) := by rw [hi]; simp
    have hall2 : ∀ (j : Nat) (c : Candidate), (c0 :: rest).get? j = some c →
        ∃ m : Int, truncToInt |c.angles.v0| = some m ∧ sel.minPitch ≤ m ∧
          (j < k → sel.minPitch < m) := by
      intro j c hj
      exact ⟨⌊|c.angles.v0|⌋, (truncToInt_abs (hmem j c hj)).1, hall j c hj,
        fun hjk => hlow j c hjk hj⟩
    refine ⟨sel, k, best, hsel, by omega, by omega, hidx, hk, ?_, hall2, ?_⟩
    · rw [(truncToInt_abs (hmem k best hk)).1, hb]
    · intro j1 j2 c1 c2 hj hc1 hc2 heq hsame
      have hk2 : k = j2 := by omega
      subst hk2
      rw [hk] at hc2
      simp only [Option.some.injEq] at hc2
      subst hc2
      have h1 := hlow j1 c1 hj hc1
      rw [(truncToInt_abs (hmem j1 c1 hc1)).1, (truncToInt_abs (hmem k best hk)).1] at heq
      simp only [Option.some.injEq] at heq
      omega

/-- C11 (witness): the candidates with pitch 0.9 and 0.1, both in the integer
bucket 0. -/
theorem selectBest_lowest_truncated_witness :
    [candidateWithPitch (9 / 10), candidateWithPitch (1 / 10)] ≠ [] ∧
    (∀ c ∈ [candidateWithPitch (9 / 10), candidateWithPitch (1 / 10)],
      |c.angles.v0| < (INT_MAX : ℚ)) ∧
    ∃ (sel : SelState) (k : Nat) (best : Candidate),
      selectBest [candidateWithPitch (9 / 10), candidateWithPitch (1 / 10)] = some sel ∧
      0 ≤ sel.iBestSolutionIndex ∧
      sel.iBestSolutionIndex <
        [candidateWithPitch (9 / 10), candidateWithPitch (1 / 10)].length ∧
      sel.iBestSolutionIndex = k ∧
      [candidateWithPitch (9 / 10), candidateWithPitch (1 / 10)].get? k = some best ∧
      truncToInt |best.angles.v0| = some sel.minPitch ∧
      (∀ (j : Nat) (c : Candidate),
        [candidateWithPitch (9 / 10), candidateWithPitch (1 / 10)].get? j = some c →
        ∃ m : Int, truncToInt |c.angles.v0| = some m ∧ sel.minPitch ≤ m ∧
          (j < k → sel.minPitch < m)) ∧
      (∀ (j1 j2 : Nat) (c1 c2 : Candidate), j1 < j2 →
        [candidateWithPitch (9 / 10), candidateWithPitch (1 / 10)].get? j1 = some c1 →
        [candidateWithPitch (9 / 10), candidateWithPitch (1 / 10)].get? j2 = some c2 →
        truncToInt |c1.angles.v0| = truncToInt |c2.angles.v0| →
        sel.iBestSolutionIndex ≠ j2) :=
  have hfin : ∀ c ∈ [candidateWithPitch (9 / 10), candidateWithPitch (1 / 10)],
      |c.angles.v0| < (INT_MAX : ℚ) := by
    intro c hc
    simp only [List.mem_cons, List.mem_singleton, List.mem_nil_iff, or_false] at hc
    rcases hc with rfl | rfl <;> norm_num [candidateWithPitch, INT_MAX, abs_of_nonneg]
  ⟨by simp, hfin,
    selectBest_lowest_truncated [candidateWithPitch (9 / 10), candidateWithPitch (1 / 10)]
      (by simp) hfin⟩

/-- C12: for three detected points of which at least one has `y < INT_MAX`,
the search for the top point ends with `topPointIndex` in `{0, 1, 2}`. If in
addition one of the two other points has `x > 0`, then `rightPointIndex` and
`leftPointIndex` are in `{0, 1, 2}` as well, the three indices are pairwise
distinct, and every `iPoints[...]` read of the resolver is in range, so the
correspondence is built. If instead both other points have `x <= 0`,
`rightPointIndex` keeps its initial value `-1`, because `maxX` starts at 0. -/
theorem roleIndices_in_range (p0 p1 p2 : Point) (rest : List Point)
    (hy : p0.y < INT_MAX ∨ p1.y < INT_MAX ∨ p2.y < INT_MAX) :
    ∃ t : Int, findTopPointIndex (p0 :: p1 :: p2 :: rest) = some t ∧
      (t = 0 ∨ t = 1 ∨ t = 2) ∧
      (((t ≠ 0 ∧ 0 < p0.x) ∨ (t ≠ 1 ∧ 0 < p1.x) ∨ (t ≠ 2 ∧ 0 < p2.x)) →
        ∃ (r l : Int) (pr pl pt : Point),
          roleIndices (p0 :: p1 :: p2 :: rest) = some (t, r, l) ∧
          (r = 0 ∨ r = 1 ∨ r = 2) ∧ (l = 0 ∨ l = 1 ∨ l = 2) ∧
          t ≠ r ∧ t ≠ l ∧ r ≠ l ∧
          vecAt (p0 :: p1 :: p2 :: rest) r = some pr ∧
          vecAt (p0 :: p1 :: p2 :: rest) l = some pl ∧
          vecAt (p0 :: p1 :: p2 :: rest) t = some pt ∧
          resolveCorrespondence (p0 :: p1 :: p2 :: rest) = some [pr, pl, pt]) ∧
      ((t ≠ 0 → p0.x ≤ 0) → (t ≠ 1 → p1.x ≤ 0) → (t ≠ 2 → p2.x ≤ 0) →
        findRightPointIndex (p0 :: p1 :: p2 :: rest) t = some (-1)) := by
  obtain ⟨t, htop, ht⟩ := findTop_three p0 p1 p2 rest hy
  obtain ⟨r, hright, hin, hout⟩ := findRight_three p0 p1 p2 rest t ht
  refine ⟨t, htop, ht, ?_, ?_⟩
  · intro hx
    obtain ⟨hr, hrt⟩ := hin hx
    obtain ⟨hl, hlt, hlr⟩ := findLeft_three t r ht hr hrt
    obtain ⟨pr, hpr, _⟩ := vecAt_three p0 p1 p2 rest r hr
    obtain ⟨pl, hpl, _⟩ := vecAt_three p0 p1 p2 rest (findLeftPointIndex t r) hl
    obtain ⟨pt, hpt, _⟩ := vecAt_three p0 p1 p2 rest t ht
    have hroles : roleIndices (p0 :: p1 :: p2 :: rest) =
        some (t, r, findLeftPointIndex t r) := by
      simp only [roleIndices, htop, hright, bind, pure, Option.some_bind]
    refine ⟨r, findLeftPointIndex t r, pr, pl, pt, hroles, hr, hl, Ne.symm hrt,
      Ne.symm hlt, Ne.symm hlr, hpr, hpl, hpt, ?_⟩
    simp only [resolveCorrespondence, hroles, hpr, hpl, hpt, bind, pure, Option.some_bind]
  · intro h0 h1 h2
    rw [hright, hout h0 h1 h2]

/-- C12 (witness): the three points `(3,9)`, `(7,8)`, `(5,1)`. -/
theorem roleIndices_in_range_witness :
    ((⟨3, 9⟩ : Point).y < INT_MAX ∨ (⟨7, 8⟩ : Point).y < INT_MAX ∨
      (⟨5, 1⟩ : Point).y < INT_MAX) ∧
    ∃ t : Int, findTopPointIndex [⟨3, 9⟩, ⟨7, 8⟩, ⟨5, 1⟩] = some t ∧
      (t = 0 ∨ t = 1 ∨ t = 2) ∧
      (((t ≠ 0 ∧ 0 < (⟨3, 9⟩ : Point).x) ∨ (t ≠ 1 ∧ 0 < (⟨7, 8⟩ : Point).x) ∨
          (t ≠ 2 ∧ 0 < (⟨5, 1⟩ : Point).x)) →
        ∃ (r l : Int) (pr pl pt : Point),
          roleIndices [⟨3, 9⟩, ⟨7, 8⟩, ⟨5, 1⟩] = some (t, r, l) ∧
          (r = 0 ∨ r = 1 ∨ r = 2) ∧ (l = 0 ∨ l = 1 ∨ l = 2) ∧
          t ≠ r ∧ t ≠ l ∧ r ≠ l ∧
          vecAt [⟨3, 9⟩, ⟨7, 8⟩, ⟨5, 1⟩] r = some pr ∧
          vecAt [⟨3, 9⟩, ⟨7, 8⟩, ⟨5, 1⟩] l = some pl ∧
          vecAt [⟨3, 9⟩, ⟨7, 8⟩, ⟨5, 1⟩] t = some pt ∧
          resolveCorrespondence [⟨3, 9⟩, ⟨7, 8⟩, ⟨5, 1⟩] = some [pr, pl, pt]) ∧
      ((t ≠ 0 → (⟨3, 9⟩ : Point).x ≤ 0) → (t ≠ 1 → (⟨7, 8⟩ : Point).x ≤ 0) →
        (t ≠ 2 → (⟨5, 1⟩ : Point).x ≤ 0) →
        findRightPointIndex [⟨3, 9⟩, ⟨7, 8⟩, ⟨5, 1⟩] t = some (-1)) :=
  ⟨by decide, roleIndices_in_range ⟨3, 9⟩ ⟨7, 8⟩ ⟨5, 1⟩ [] (by decide)⟩

end EasyTracker
